import Mathlib

/-!
Verification development for the orisha deterministic analysis pipeline.

The definitions below are a shallow embedding of the Python sources:
`src/orisha/pipeline.py` (stage orchestration, error handling, SBOM merge),
`src/orisha/analyzers/dependency.py` (DirectDependencyResolver),
`src/orisha/analyzers/import_graph.py` (ImportGraphBuilder) and
`src/orisha/analyzers/diagrams/mermaid.py` (MermaidGenerator).

Python strings are modelled by Lean `String`, with the string operations
re-implemented over `List Char` so that everything reduces in the kernel.
Python `set` iteration order (used by `list(set(...))`) is not specified by
the language, so functions that materialise a set into a list take an
explicit ordering function constrained by `IsSetOrder`.
-/

/-! ## Char-list implementations of the Python string operations -/

/-- `isPre p l` : `p` is a leading segment of `l` (Python `str.startswith`). -/
def isPre : List Char → List Char → Bool
  | [], _ => true
  | _ :: _, [] => false
  | a :: s, b :: t => a = b && isPre s t

/-- Substring containment on char lists (Python `in` on strings). -/
def subIn (pat : List Char) : List Char → Bool
  | [] => pat.isEmpty
  | c :: t => isPre pat (c :: t) || subIn pat t

/-- `startsWithS s pre` : Python `s.startswith(pre)`. -/
def startsWithS (s pre : String) : Bool := isPre pre.data s.data

/-- `endsWithS s suf` : Python `s.endswith(suf)`. -/
def endsWithS (s suf : String) : Bool := isPre suf.data.reverse s.data.reverse

/-- `containsS s pat` : Python `pat in s`. -/
def containsS (s pat : String) : Bool := subIn pat.data s.data

/-- Python `str.split(sep)` for a one-character separator, on char lists.
Always returns a non-empty list; `"".split(sep) == [""]`. -/
def splitChars (sep : Char) : List Char → List (List Char)
  | [] => [[]]
  | c :: t =>
    let r := splitChars sep t
    if c = sep then [] :: r
    else
      match r with
      | h :: rt => (c :: h) :: rt
      | [] => [[c]]

/-- Python `s.split(sep)` for a one-character separator. -/
def pySplit (s : String) (sep : Char) : List String :=
  (splitChars sep s.data).map String.mk

/-- Python `sep.join(parts)`. -/
def pyJoin (sep : String) : List String → String
  | [] => ""
  | h :: t => t.foldl (fun acc x => acc ++ sep ++ x) h

/-- Python `s.replace(a, b)` for one-character `a` and `b`. -/
def replaceChar (s : String) (a b : Char) : String :=
  String.mk (s.data.map fun c => if c = a then b else c)

/-- Python `str.lower()` (ASCII range; the sources only feed it ASCII names). -/
def pyLower (s : String) : String := String.mk (s.data.map Char.toLower)

/-- Python `str.strip()` with no argument: remove leading/trailing whitespace. -/
def pyStrip (s : String) : String :=
  String.mk (((s.data.dropWhile Char.isWhitespace).reverse.dropWhile Char.isWhitespace).reverse)

/-- Python `str.lstrip(chars)` for a set of characters. -/
def pyLstripChars (s : String) (chars : List Char) : String :=
  String.mk (s.data.dropWhile (fun c => chars.contains c))

/-- Code-point lexicographic order on char lists (Python `<` on `str`). -/
def charListLt : List Char → List Char → Bool
  | [], [] => false
  | [], _ :: _ => true
  | _ :: _, [] => false
  | a :: s, b :: t =>
    if a.toNat < b.toNat then true
    else if b.toNat < a.toNat then false
    else charListLt s t

/-- Insert a string into a (sorted) list, keeping code-point order. -/
def insertSorted (x : String) : List String → List String
  | [] => [x]
  | y :: t => if charListLt y.data x.data then y :: insertSorted x t else x :: y :: t

/-- Python `sorted(set(l))` for strings: deduplicate, then sort ascending. -/
def pySortedSet (l : List String) : List String :=
  l.dedup.foldr insertSorted []

/-- Python `dict` built by iterated assignment, queried with `d.get(k)`:
the *last* binding of a key wins. -/
def dictGetLast (l : List (String × String)) (k : String) : Option String :=
  match l with
  | [] => none
  | (a, b) :: t =>
    match dictGetLast t k with
    | some v => some v
    | none => if a = k then some b else none

/-- The single-quote character (written via its code point to keep source plain). -/
def sqChar : Char := Char.ofNat 39

/-- The double-quote character. -/
def dqChar : Char := Char.ofNat 34

/-- The backslash character. -/
def bslashChar : Char := Char.ofNat 92

/-- One-character strings used when assembling Mermaid text. -/
def sqStr : String := String.mk [sqChar]

/-- Literal `"` as a string. -/
def dqStr : String := String.mk [dqChar]

/-- Literal left brace as a string. -/
def lbStr : String := "\x7b"

/-- Literal right brace as a string. -/
def rbStr : String := "\x7d"

/-! ## Pipeline model (`src/orisha/pipeline.py`)

`AnalysisPipeline.run` is a straight-line sequence of guarded stage calls
inside one `try`.  Each stage method is modelled by a function from an
outcome of its underlying work (success / tool-not-available / execution
failure) and the running accumulator to the new accumulator plus an
"exception propagates out of the stage" flag.  An escaping exception is the
`except` branch of `run`. -/

/-- `AnalysisStatus` from `models/analysis.py`. -/
inductive AnalysisStatus
  | pending
  | running
  | completed
  | failed
deriving DecidableEq

/-- `AnalysisError` from `models/analysis.py`. -/
structure AnalysisError where
  component : String
  message : String
  file_path : Option String := none
  recoverable : Bool := true
deriving DecidableEq

/-- `PipelineOptions` from `pipeline.py` (stage toggles and `fail_fast`;
`exclude_patterns` and `verbose_llm` do not influence control flow). -/
structure PipelineOptions where
  skip_sbom : Bool := false
  skip_architecture : Bool := false
  skip_ast : Bool := false
  skip_dependencies : Bool := false
  skip_llm : Bool := false
  skip_flow_docs : Bool := false
  skip_repomix : Bool := false
  fail_fast : Bool := false
deriving DecidableEq

/-- The stages of `AnalysisPipeline.run`, in the order they appear in the
source: dependency parsing (Stage 1), Repomix compression (1b), AST parsing
(2), flow documentation (2b), SBOM (3), architecture (4), LLM summaries (5),
holistic overview (8). -/
inductive Stage
  | dependency
  | repomix
  | ast
  | flowDocs
  | sbom
  | architecture
  | llm
  | holistic
deriving DecidableEq

/-- Outcome of the work a stage performs: success, a tool/provider that is
not available (`ToolNotAvailableError`, or for the LLM stage a client that
cannot be created / fails its availability check), or a failure while
executing (`ToolExecutionError` or any other exception). -/
inductive StageOutcome
  | ok
  | toolNotAvailable
  | execFailed
deriving DecidableEq

/-- The environment of one pipeline run: whether the LLM is configured as
enabled (`config.llm.enabled`), and what each stage's underlying work would
do if executed. -/
structure StageEnv where
  llm_enabled : Bool := true
  dependency_outcome : StageOutcome := .ok
  repomix_outcome : StageOutcome := .ok
  ast_outcome : StageOutcome := .ok
  flow_docs_outcome : StageOutcome := .ok
  sbom_outcome : StageOutcome := .ok
  architecture_outcome : StageOutcome := .ok
  llm_outcome : StageOutcome := .ok
  holistic_outcome : StageOutcome := .ok
deriving DecidableEq

/-- The mutable data of `AnalysisResult` that the stage handlers touch:
the error list and whether `compressed_codebase` has been populated. -/
structure AuxState where
  errors : List AnalysisError := []
  compressed : Bool := false
deriving DecidableEq

/-- Error recorded by `_run_dependency_analysis`'s `except` branch. -/
def dependencyStageError : AnalysisError :=
  { component := "dependency", message := "Dependency parsing failed", recoverable := true }

/-- Error recorded by `_run_ast_analysis`'s `except` branch. -/
def astStageError : AnalysisError :=
  { component := "ast", message := "AST parsing failed", recoverable := true }

/-- Error recorded by the `except` branches inside `_run_flow_documentation`. -/
def flowDocsStageError : AnalysisError :=
  { component := "flow_docs", message := "Flow documentation step failed", recoverable := true }

/-- Error recorded by `_run_repomix_compression`'s `except` branch. -/
def repomixStageError : AnalysisError :=
  { component := "repomix", message := "Repomix compression failed", recoverable := true }

/-- Error recorded by `_run_sbom_analysis`'s `except` branches. -/
def sbomStageError : AnalysisError :=
  { component := "sbom", message := "SBOM generation failed", recoverable := true }

/-- Error recorded by `_run_architecture_analysis`'s `except` branches. -/
def architectureStageError : AnalysisError :=
  { component := "architecture", message := "Architecture extraction failed", recoverable := true }

/-- Error recorded by `_run_llm_summarization` when the client cannot be
created or its availability check fails: explicitly `recoverable=False`. -/
def llmStageError : AnalysisError :=
  { component := "llm", message := "LLM provider is not available", recoverable := false }

/-- Error recorded by `_run_holistic_overview` on client-creation failure or
`LLMError` (recoverable, the overview is best-effort). -/
def holisticStageError : AnalysisError :=
  { component := "holistic_overview", message := "Holistic overview generation failed",
    recoverable := true }

/-- Error added by `run`'s outer `except Exception` handler. -/
def pipelineFatalError : AnalysisError :=
  { component := "pipeline", message := "Pipeline failed", recoverable := false }

/-- `_run_dependency_analysis`: any exception is caught, recorded as a
recoverable error, and re-raised iff `fail_fast`. -/
def run_dependency_analysis (opts : PipelineOptions) (outcome : StageOutcome)
    (aux : AuxState) : AuxState × Bool :=
  match outcome with
  | .ok => (aux, false)
  | _ => ({ aux with errors := aux.errors ++ [dependencyStageError] }, opts.fail_fast)

/-- `_run_repomix_compression`: on success `result.compressed_codebase` is
set; any exception is caught and recorded as a recoverable error, and the
handler contains no `fail_fast` re-raise, so it never propagates. -/
def run_repomix_compression (outcome : StageOutcome) (aux : AuxState) : AuxState × Bool :=
  match outcome with
  | .ok => ({ aux with compressed := true }, false)
  | _ => ({ aux with errors := aux.errors ++ [repomixStageError] }, false)

/-- `_run_ast_analysis`: same handler shape as the dependency stage. -/
def run_ast_analysis (opts : PipelineOptions) (outcome : StageOutcome)
    (aux : AuxState) : AuxState × Bool :=
  match outcome with
  | .ok => (aux, false)
  | _ => ({ aux with errors := aux.errors ++ [astStageError] }, opts.fail_fast)

/-- `_run_flow_documentation`: each of its sub-steps (module detection, the
graph of imports, entry points, integrations, diagram) catches its exception,
records a recoverable `flow_docs` error and re-raises iff `fail_fast`;
modelled as one outcome for the stage. -/
def run_flow_documentation (opts : PipelineOptions) (outcome : StageOutcome)
    (aux : AuxState) : AuxState × Bool :=
  match outcome with
  | .ok => (aux, false)
  | _ => ({ aux with errors := aux.errors ++ [flowDocsStageError] }, opts.fail_fast)

/-- `_run_sbom_analysis`: `ToolNotAvailableError` is recorded recoverable
with no `fail_fast` re-raise; `ToolExecutionError` and unexpected exceptions
are recorded recoverable and re-raised iff `fail_fast`. -/
def run_sbom_analysis (opts : PipelineOptions) (outcome : StageOutcome)
    (aux : AuxState) : AuxState × Bool :=
  match outcome with
  | .ok => (aux, false)
  | .toolNotAvailable => ({ aux with errors := aux.errors ++ [sbomStageError] }, false)
  | .execFailed => ({ aux with errors := aux.errors ++ [sbomStageError] }, opts.fail_fast)

/-- `_run_architecture_analysis`: same handler shape as the SBOM stage. -/
def run_architecture_analysis (opts : PipelineOptions) (outcome : StageOutcome)
    (aux : AuxState) : AuxState × Bool :=
  match outcome with
  | .ok => (aux, false)
  | .toolNotAvailable => ({ aux with errors := aux.errors ++ [architectureStageError] }, false)
  | .execFailed => ({ aux with errors := aux.errors ++ [architectureStageError] }, opts.fail_fast)

/-- `_run_llm_summarization`: with the LLM disabled it only applies
placeholders.  With the LLM enabled, a client-creation failure or a failing
availability check records a `recoverable=False` error and raises
`ValueError` unconditionally (it propagates regardless of `fail_fast`);
an `LLMError` inside structured prompting is caught and replaced by a
placeholder without recording an error. -/
def run_llm_summarization (llmEnabled : Bool) (outcome : StageOutcome)
    (aux : AuxState) : AuxState × Bool :=
  if llmEnabled then
    match outcome with
    | .ok => (aux, false)
    | .toolNotAvailable => ({ aux with errors := aux.errors ++ [llmStageError] }, true)
    | .execFailed => (aux, false)
  else (aux, false)

/-- `_run_holistic_overview`: returns silently when the LLM is disabled;
client-creation failure or `LLMError` records a recoverable error and
returns; nothing propagates. -/
def run_holistic_overview (llmEnabled : Bool) (outcome : StageOutcome)
    (aux : AuxState) : AuxState × Bool :=
  if llmEnabled then
    match outcome with
    | .ok => (aux, false)
    | _ => ({ aux with errors := aux.errors ++ [holisticStageError] }, false)
  else (aux, false)

/-- One guarded stage of `run`: its label, the guard of its `if` (the
holistic stage also reads `result.compressed_codebase`), and its body. -/
structure StageSpec where
  stage : Stage
  enabled : AuxState → Bool
  act : AuxState → AuxState × Bool

/-- Stage 1 entry of `run`. -/
def depSpec (opts : PipelineOptions) (env : StageEnv) : StageSpec :=
  ⟨.dependency, fun _ => !opts.skip_dependencies,
   run_dependency_analysis opts env.dependency_outcome⟩

/-- Stage 1b entry of `run`. -/
def repomixSpec (opts : PipelineOptions) (env : StageEnv) : StageSpec :=
  ⟨.repomix, fun _ => !opts.skip_repomix, run_repomix_compression env.repomix_outcome⟩

/-- Stage 2 entry of `run`. -/
def astSpec (opts : PipelineOptions) (env : StageEnv) : StageSpec :=
  ⟨.ast, fun _ => !opts.skip_ast, run_ast_analysis opts env.ast_outcome⟩

/-- Stage 2b entry of `run` (guard `not skip_flow_docs and not skip_ast`). -/
def flowDocsSpec (opts : PipelineOptions) (env : StageEnv) : StageSpec :=
  ⟨.flowDocs, fun _ => !opts.skip_flow_docs && !opts.skip_ast,
   run_flow_documentation opts env.flow_docs_outcome⟩

/-- Stage 3 entry of `run`. -/
def sbomSpec (opts : PipelineOptions) (env : StageEnv) : StageSpec :=
  ⟨.sbom, fun _ => !opts.skip_sbom, run_sbom_analysis opts env.sbom_outcome⟩

/-- Stage 4 entry of `run`. -/
def archSpec (opts : PipelineOptions) (env : StageEnv) : StageSpec :=
  ⟨.architecture, fun _ => !opts.skip_architecture,
   run_architecture_analysis opts env.architecture_outcome⟩

/-- Stage 5 entry of `run`. -/
def llmSpec (opts : PipelineOptions) (env : StageEnv) : StageSpec :=
  ⟨.llm, fun _ => !opts.skip_llm, run_llm_summarization env.llm_enabled env.llm_outcome⟩

/-- Stage 8 entry of `run` (guard
`not skip_repomix and not skip_llm and result.compressed_codebase`). -/
def holisticSpec (opts : PipelineOptions) (env : StageEnv) : StageSpec :=
  ⟨.holistic, fun aux => !opts.skip_repomix && !opts.skip_llm && aux.compressed,
   run_holistic_overview env.llm_enabled env.holistic_outcome⟩

/-- The body of `run`'s `try` block, in source order. -/
def pipelineSpecs (opts : PipelineOptions) (env : StageEnv) : List StageSpec :=
  [depSpec opts env, repomixSpec opts env, astSpec opts env, flowDocsSpec opts env,
   sbomSpec opts env, archSpec opts env, llmSpec opts env, holisticSpec opts env]

/-- Run a list of guarded stages: returns the trace of stages entered, the
final accumulator, and whether an exception escaped (ending the `try`). -/
def execStages : List StageSpec → AuxState → List Stage × AuxState × Bool
  | [], aux => ([], aux, false)
  | sp :: rest, aux =>
    if sp.enabled aux then
      match sp.act aux with
      | (aux2, true) => ([sp.stage], aux2, true)
      | (aux2, false) =>
        let r := execStages rest aux2
        (sp.stage :: r.1, r.2)
    else execStages rest aux

/-- The observable final state of `AnalysisPipeline.run`. -/
structure RunState where
  trace : List Stage
  errors : List AnalysisError
  status : AnalysisStatus
deriving DecidableEq

/-- `AnalysisPipeline.run`: execute the guarded stages; if an exception
escaped, set status `failed` and append the outer handler's
`recoverable=False` pipeline error; otherwise status is `failed` iff
`result.has_errors()` and some recorded error is non-recoverable, else
`completed`. -/
def AnalysisPipeline.run (opts : PipelineOptions) (env : StageEnv) : RunState :=
  let r := execStages (pipelineSpecs opts env) {}
  if r.2.2 then
    { trace := r.1, errors := r.2.1.errors ++ [pipelineFatalError], status := .failed }
  else
    { trace := r.1, errors := r.2.1.errors,
      status :=
        if !r.2.1.errors.isEmpty && r.2.1.errors.any (fun e => !e.recoverable) then .failed
        else .completed }

/-- The fixed stage order documented by `run` (source order of its guarded
calls). -/
def pipelineStageOrder : List Stage :=
  [.dependency, .repomix, .ast, .flowDocs, .sbom, .architecture, .llm, .holistic]

/-- The deterministic (non-generative) stages: everything except the LLM
summarization and the holistic overview. -/
def deterministicStage : Stage → Bool
  | .llm => false
  | .holistic => false
  | _ => true

/-- The static part of each stage's guard in `run` (the holistic stage
additionally requires `result.compressed_codebase` at run time). -/
def stageEnabled (opts : PipelineOptions) : Stage → Bool
  | .dependency => !opts.skip_dependencies
  | .repomix => !opts.skip_repomix
  | .ast => !opts.skip_ast
  | .flowDocs => !opts.skip_flow_docs && !opts.skip_ast
  | .sbom => !opts.skip_sbom
  | .architecture => !opts.skip_architecture
  | .llm => !opts.skip_llm
  | .holistic => !opts.skip_repomix && !opts.skip_llm

/-! ## Direct dependency resolution
(`DirectDependencyResolver` in `src/orisha/analyzers/dependency.py`)

After `resolve_from_directory` the resolver's `_direct_deps` dict has
exactly the keys `npm`, `pypi`, `go`, `maven`; we model that state. -/

/-- The `_direct_deps` mapping: manifest-declared names per ecosystem. -/
structure DirectDeps where
  npm : List String := []
  pypi : List String := []
  go : List String := []
  maven : List String := []
deriving DecidableEq

/-- `_normalize_pypi_name`: lowercase and treat `-`, `_`, `.` alike. -/
def normalize_pypi_name (name : String) : String :=
  replaceChar (replaceChar (pyLower name) (Char.ofNat 45) (Char.ofNat 95)) (Char.ofNat 46)
    (Char.ofNat 95)

/-- `_match_npm_package`: exact match; for scoped (`@`-prefixed) names again
an exact membership test; anything else does not match. -/
def match_npm_package (name : String) (direct : List String) : Bool :=
  if name ∈ direct then true
  else if startsWithS name "@" then decide (name ∈ direct)
  else false

/-- `DirectDependencyResolver.is_direct`. -/
def DirectDependencyResolver.is_direct (dd : DirectDeps) (name ecosystem : String) : Bool :=
  if ecosystem ∉ (["npm", "pypi", "go", "maven"] : List String) then false
  else
    let direct : List String :=
      if ecosystem = "npm" then dd.npm
      else if ecosystem = "pypi" then dd.pypi
      else if ecosystem = "go" then dd.go
      else dd.maven
    if name ∈ direct then true
    else if ecosystem = "npm" then match_npm_package name direct
    else if ecosystem = "pypi" then
      direct.any fun d => normalize_pypi_name d = normalize_pypi_name name
    else false

/-! ## SBOM merge into the technology stack
(`AnalysisPipeline._merge_sbom_data` in `pipeline.py`)

The Python code builds `existing_deps = {(d.name, d.ecosystem): d for d in
result.technology_stack.dependencies}` once (last duplicate wins) and then,
for each SBOM package, either backfills the license of the aliased existing
`Dependency` object or appends a new `Dependency` to the list. -/

/-- `Dependency` from `models/analysis.py` (the fields the merge reads). -/
structure Dependency where
  name : String
  ecosystem : String
  source_file : String
  version : Option String := none
  license : Option String := none
deriving DecidableEq

/-- `CanonicalPackage` from `models/canonical/sbom.py` (the fields the
merge reads). -/
structure CanonicalPackage where
  name : String
  ecosystem : String
  version : Option String := none
  license : Option String := none
  source_file : Option String := none
deriving DecidableEq

/-- Python truthiness of an optional string: `None` and `""` are falsy. -/
def optTruthy : Option String → Bool
  | none => false
  | some s => !(s = "")

/-- Index of the *last* element of `l` whose (name, ecosystem) key is `k`
(the binding the dict comprehension keeps). -/
def lastKeyIdx (l : List Dependency) (k : String × String) : Option Nat :=
  match l with
  | [] => none
  | d :: t =>
    match lastKeyIdx t k with
    | some j => some (j + 1)
    | none => if (d.name, d.ecosystem) = k then some 0 else none

/-- The `Dependency` appended for an SBOM package not present in the stack
(`source_file=pkg.source_file or "SBOM"`, Python `or` on a falsy operand). -/
def dependencyOfPackage (pkg : CanonicalPackage) : Dependency :=
  { name := pkg.name, ecosystem := pkg.ecosystem, version := pkg.version,
    license := pkg.license,
    source_file := match pkg.source_file with
      | some s => if s = "" then "SBOM" else s
      | none => "SBOM" }

/-- One iteration of the `for pkg in sbom.packages` loop.  `deps0` is the
original dependency list (from which the lookup dict was built); `deps` is
the current list (original objects at their original indices, appended
packages after them). -/
def mergeSbomStep (deps0 : List Dependency) (deps : List Dependency)
    (pkg : CanonicalPackage) : List Dependency :=
  match lastKeyIdx deps0 (pkg.name, pkg.ecosystem) with
  | some i =>
    match deps[i]? with
    | some d =>
      if optTruthy pkg.license && !optTruthy d.license then
        deps.set i { d with license := pkg.license }
      else deps
    | none => deps
  | none => deps ++ [dependencyOfPackage pkg]

/-- `_merge_sbom_data`, as a transformation of the dependency list. -/
def merge_sbom_data (deps0 : List Dependency) (pkgs : List CanonicalPackage) :
    List Dependency :=
  pkgs.foldl (mergeSbomStep deps0) deps0

/-- What the merge is allowed to do to the record at position `i` of the
original dependency list: keep every identity field, never overwrite a
truthy license, and change the license only from falsy (None or empty) to
the truthy license of a matching SBOM package. -/
def MergePreserved (deps0 : List Dependency) (pkgs : List CanonicalPackage) (i : Nat)
    (cur : List Dependency) : Prop :=
  ∃ d0 d', deps0[i]? = some d0 ∧ cur[i]? = some d' ∧
    d'.name = d0.name ∧ d'.ecosystem = d0.ecosystem ∧
    d'.version = d0.version ∧ d'.source_file = d0.source_file ∧
    (optTruthy d0.license = true → d'.license = d0.license) ∧
    (d'.license ≠ d0.license →
      optTruthy d0.license = false ∧
      ∃ pkg ∈ pkgs, pkg.name = d0.name ∧ pkg.ecosystem = d0.ecosystem ∧
        optTruthy pkg.license = true ∧ d'.license = pkg.license)

/-! ## Import graph construction
(`ImportGraphBuilder` in `src/orisha/analyzers/import_graph.py`)

Paths are modelled as strings with `/` separators.  The `__init__.py`
filesystem scan of `_identify_internal_modules` is modelled by an explicit
input `initDirs`: the directories (relative to the repo root) that contain
an `__init__.py`. -/

/-- `CanonicalModule` from `models/canonical/ast.py` (fields the builder
reads: `path`, `language`, `imports`). -/
structure AstModule where
  path : String
  language : String
  imports : List String := []
deriving DecidableEq

/-- A detected module (`models/canonical/module.py` `CanonicalModule`):
the builder reads `name` and `path`. -/
structure DetectedModule where
  name : String
  path : String
deriving DecidableEq

/-- `ImportGraph` from `models/canonical/module.py`. -/
structure ImportGraph where
  nodes : List String := []
  edges : List (String × String) := []
deriving DecidableEq

/-- `pathlib.Path(p).suffix`: the final component's extension, empty for a
leading-dot-only or trailing-dot name. -/
def pySuffix (path : String) : String :=
  let name := (pySplit path (Char.ofNat 47)).getLastD ""
  let cs := name.data
  match cs.reverse.findIdx? (fun c => c = Char.ofNat 46) with
  | none => ""
  | some j =>
    let i := cs.length - 1 - j
    if 0 < i ∧ i < cs.length - 1 then String.mk (cs.drop i) else ""

/-- `Path(p).with_suffix("")`: drop the suffix returned by `pySuffix`. -/
def pyDropSuffix (path : String) : String :=
  String.mk (path.data.take (path.data.length - (pySuffix path).data.length))

/-- The extensions `_normalize_module_name` strips. -/
def moduleSuffixes : List String := [".py", ".js", ".ts", ".tsx", ".go", ".java"]

/-- The common leading directories `_normalize_module_name` strips. -/
def skipRoots : List String := ["src/", "lib/", "pkg/", "app/", "internal/"]

/-- Drop the first matching leading directory (the `for ... break` loop). -/
def dropSkipRoot (path : String) : String :=
  match skipRoots.find? (fun pre => startsWithS path pre) with
  | some pre => String.mk (path.data.drop pre.data.length)
  | none => path

/-- `ImportGraphBuilder._normalize_module_name`: make the path relative to
the repo root, strip `./`, a known extension, a `/__init__` suffix and a
common root directory; `None` when empty or outside the repo. -/
def normalize_module_name (repoPath : String) (path : String) : Option String :=
  if path = "" then none
  else
    let rel? : Option String :=
      if startsWithS path "/" then
        if path = repoPath then some "."
        else if startsWithS path (repoPath ++ "/") then
          some (String.mk (path.data.drop (repoPath.data.length + 1)))
        else none
      else some path
    match rel? with
    | none => none
    | some p =>
      let p := if startsWithS p "./" then String.mk (p.data.drop 2) else p
      let p := if (pySuffix p) ∈ moduleSuffixes then pyDropSuffix p else p
      let p := if endsWithS p "/__init__" then String.mk (p.data.take (p.data.length - 9)) else p
      let p := dropSkipRoot p
      if p = "" then none else some p

/-- The parent packages added by `_identify_internal_modules`
(`"/".join(parts[:i])` for `i` in `1 .. len(parts)-1`). -/
def parentPackages (name : String) : List String :=
  let parts := pySplit name (Char.ofNat 47)
  (List.range parts.length).filterMap fun i =>
    if i = 0 then none else some (pyJoin "/" (parts.take i))

/-- `_identify_internal_modules` (as the list whose membership the builder
tests): normalized AST module names with their parent packages, detected
module names and paths, and for every `__init__.py` directory both its
dotted and its slashed form. -/
def identify_internal_modules (repoPath : String) (astModules : List AstModule)
    (detected : List DetectedModule) (initDirs : List String) : List String :=
  (astModules.flatMap fun m =>
    match normalize_module_name repoPath m.path with
    | some name => name :: parentPackages name
    | none => [])
  ++ (detected.flatMap fun m => [m.name, m.path])
  ++ (initDirs.flatMap fun d => [replaceChar d (Char.ofNat 47) (Char.ofNat 46), d])

/-- A Python word character for the `\w` class (ASCII approximation; the
repository feeds it identifiers). -/
def isWordChar (c : Char) : Bool := c.isAlphanum || c = Char.ofNat 95

/-- Match `re.match(r"from\s+([\w.]+)\s+import", s)` and return the group. -/
def pyFromMatch (cs : List Char) : Option (List Char) :=
  if isPre "from".data cs then
    let r := cs.drop 4
    let ws := r.takeWhile Char.isWhitespace
    if ws.isEmpty then none
    else
      let r2 := r.drop ws.length
      let grp := r2.takeWhile (fun c => isWordChar c || c = Char.ofNat 46)
      if grp.isEmpty then none
      else
        let r3 := r2.drop grp.length
        let ws2 := r3.takeWhile Char.isWhitespace
        if ws2.isEmpty then none
        else if isPre "import".data (r3.drop ws2.length) then some grp else none
  else none

/-- Match `re.match(r"import\s+([\w.]+)", s)` and return the group. -/
def pyImportMatch (cs : List Char) : Option (List Char) :=
  if isPre "import".data cs then
    let r := cs.drop 6
    let ws := r.takeWhile Char.isWhitespace
    if ws.isEmpty then none
    else
      let grp := (r.drop ws.length).takeWhile (fun c => isWordChar c || c = Char.ofNat 46)
      if grp.isEmpty then none else some grp
  else none

/-- `_parse_python_import`: `from X import ...` (relative `.X` skipped) or
`import X`, with dots replaced by slashes. -/
def parse_python_import (stmt : String) : List String :=
  let s := (pyStrip stmt).data
  match pyFromMatch s with
  | some grp =>
    let m := String.mk grp
    if startsWithS m "." then [] else [replaceChar m (Char.ofNat 46) (Char.ofNat 47)]
  | none =>
    match pyImportMatch s with
    | some grp => [replaceChar (String.mk grp) (Char.ofNat 46) (Char.ofNat 47)]
    | none => []

/-- Try `from\s+['"]([^'"]+)['"]` at this position. -/
def jsFromAt (cs : List Char) : Option (List Char) :=
  if isPre "from".data cs then
    let r := cs.drop 4
    let ws := r.takeWhile Char.isWhitespace
    if ws.isEmpty then none
    else
      match r.drop ws.length with
      | [] => none
      | q :: r2 =>
        if q = sqChar ∨ q = dqChar then
          let content := r2.takeWhile (fun c => ¬(c = sqChar ∨ c = dqChar))
          if content.isEmpty then none
          else
            match r2.drop content.length with
            | q2 :: _ => if q2 = sqChar ∨ q2 = dqChar then some content else none
            | [] => none
        else none
  else none

/-- `re.search` for the ES6 `from '...'` pattern: leftmost match. -/
def jsFromSearch : List Char → Option (List Char)
  | [] => none
  | c :: t =>
    match jsFromAt (c :: t) with
    | some m => some m
    | none => jsFromSearch t

/-- Try `require\s*\(\s*['"]([^'"]+)['"]\s*\)` at this position. -/
def jsRequireAt (cs : List Char) : Option (List Char) :=
  if isPre "require".data cs then
    let r := (cs.drop 7).dropWhile Char.isWhitespace
    match r with
    | [] => none
    | p :: r2 =>
      if p = Char.ofNat 40 then
        match r2.dropWhile Char.isWhitespace with
        | [] => none
        | q :: r3 =>
          if q = sqChar ∨ q = dqChar then
            let content := r3.takeWhile (fun c => ¬(c = sqChar ∨ c = dqChar))
            if content.isEmpty then none
            else
              match r3.drop content.length with
              | q2 :: r4 =>
                if q2 = sqChar ∨ q2 = dqChar then
                  match r4.dropWhile Char.isWhitespace with
                  | p2 :: _ => if p2 = Char.ofNat 41 then some content else none
                  | [] => none
                else none
              | [] => none
          else none
      else none
  else none

/-- `re.search` for the CommonJS `require('...')` pattern. -/
def jsRequireSearch : List Char → Option (List Char)
  | [] => none
  | c :: t =>
    match jsRequireAt (c :: t) with
    | some m => some m
    | none => jsRequireSearch t

/-- `_parse_js_import`: ES6 `from '...'` first, else `require('...')`; only
relative specifiers (leading `.`) are kept, with leading `.`/`/` characters
stripped (`module.lstrip("./")`). -/
def parse_js_import (stmt : String) : List String :=
  let s := (pyStrip stmt).data
  match jsFromSearch s with
  | some m =>
    let mdl := String.mk m
    if startsWithS mdl "." then [pyLstripChars mdl [Char.ofNat 46, Char.ofNat 47]] else []
  | none =>
    match jsRequireSearch s with
    | some m =>
      let mdl := String.mk m
      if startsWithS mdl "." then [pyLstripChars mdl [Char.ofNat 46, Char.ofNat 47]] else []
    | none => []

mutual
/-- The scan of `re.findall` for the pattern of one double-quoted non-empty
content group: all matches, left to right, non-overlapping. -/
def findAllDq : List Char → List String
  | [] => []
  | c :: t => if c = dqChar then scanDq t [] else findAllDq t

/-- Scan inside an opened quote, accumulating content (reversed). -/
def scanDq : List Char → List Char → List String
  | [], _ => []
  | c :: t, acc =>
    if c = dqChar then
      if acc.isEmpty then scanDq t []
      else String.mk acc.reverse :: findAllDq t
    else scanDq t (c :: acc)
end

/-- `_parse_go_import`: quoted paths whose first segment has no dot
(domains are treated as external). -/
def parse_go_import (stmt : String) : List String :=
  (findAllDq stmt.data).filter fun m =>
    !(((pySplit m (Char.ofNat 47)).headD "").data.contains (Char.ofNat 46))

/-- `re.match(r"import\s+(?:static\s+)?([\w.]+);?", s)`, returning the group. -/
def javaImportMatch (cs : List Char) : Option (List Char) :=
  if isPre "import".data cs then
    let r := cs.drop 6
    let ws := r.takeWhile Char.isWhitespace
    if ws.isEmpty then none
    else
      let r2 := r.drop ws.length
      let r3 :=
        if isPre "static".data r2 ∧ ¬((r2.drop 6).takeWhile Char.isWhitespace).isEmpty then
          (r2.drop 6).dropWhile Char.isWhitespace
        else r2
      let grp := r3.takeWhile (fun c => isWordChar c || c = Char.ofNat 46)
      if grp.isEmpty then none else some grp
  else none

/-- `_parse_java_import`: keep the package (all dot segments but the last),
joined with slashes; single-segment imports produce nothing. -/
def parse_java_import (stmt : String) : List String :=
  match javaImportMatch (pyStrip stmt).data with
  | some grp =>
    let parts := pySplit (String.mk grp) (Char.ofNat 46)
    if parts.length > 1 then [pyJoin "/" (parts.take (parts.length - 1))] else []
  | none => []

/-- `_parse_import_statement`: dispatch on the module language. -/
def parse_import_statement (stmt : String) (language : String) : List String :=
  if language = "python" then parse_python_import stmt
  else if language = "javascript" ∨ language = "typescript" then parse_js_import stmt
  else if language = "go" then parse_go_import stmt
  else if language = "java" then parse_java_import stmt
  else []

/-- `_normalize_imported_module`: normalize separators, strip a leading
`./`, and drop names still carrying a parent-relative `../` prefix. -/
def normalize_imported_module (imported : String) : Option String :=
  if imported = "" then none
  else
    let cs := imported.data.map fun c => if c = bslashChar then Char.ofNat 47 else c
    let cs := if isPre "./".data cs then cs.drop 2 else cs
    if isPre "../".data cs then none else some (String.mk cs)

/-- A valid materialisation of Python's `list(set(l))`: some duplicate-free
enumeration of the elements of `l` (the iteration order of a `str`-keyed
set is unspecified across processes because of hash randomization). -/
def IsSetOrder (f : List (String × String) → List (String × String)) : Prop :=
  ∀ l, (f l).Nodup ∧ ∀ x, x ∈ f l ↔ x ∈ l

/-- The body of the `for module in ast_result.modules` loop of
`build_import_graph`: add the module's node, resolve its imports against
the internal-module list (truthy and member), and extend nodes and edges. -/
def importGraphStep (repoPath : String) (internal : List String)
    (acc : List String × List (String × String)) (m : AstModule) :
    List String × List (String × String) :=
  match normalize_module_name repoPath m.path with
  | none => acc
  | some moduleName =>
    let resolved := (m.imports.flatMap fun stmt =>
      parse_import_statement stmt m.language).filterMap fun imp =>
        match normalize_imported_module imp with
        | some n => if !(n = "") && internal.contains n then some n else none
        | none => none
    (acc.1 ++ moduleName :: resolved, acc.2 ++ resolved.map fun n => (moduleName, n))

/-- `ImportGraphBuilder.build_import_graph`: run the loop over all modules,
then return `sorted(nodes)` and `list(set(edges))` (the latter through `f`). -/
def build_import_graph (f : List (String × String) → List (String × String))
    (repoPath : String) (astModules : List AstModule)
    (detected : List DetectedModule) (initDirs : List String) : ImportGraph :=
  let internal := identify_internal_modules repoPath astModules detected initDirs
  let acc := astModules.foldl (importGraphStep repoPath internal) ([], [])
  { nodes := pySortedSet acc.1, edges := f acc.2 }

/-! ## Mermaid diagram generation
(`MermaidGenerator` in `src/orisha/analyzers/diagrams/mermaid.py`) -/

/-- `ModuleFlowDiagram` from `models/canonical/module.py`. -/
structure ModuleFlowDiagram where
  mermaid : String
  node_count : Nat
  simplified : Bool := false
  title : String := "Module Dependencies"
deriving DecidableEq

/-- `MAX_NODES_FULL_DETAIL`. -/
def MAX_NODES_FULL_DETAIL : Nat := 15

/-- `MAX_NODES_MODULE_LEVEL`. -/
def MAX_NODES_MODULE_LEVEL : Nat := 30

/-- The packages `_collapse_to_top_level` excludes entirely. -/
def excludedPackages : List String := ["tests", "test", "spec", "specs", "__tests__"]

/-- `node.split("/")[0]`. -/
def topSegment (n : String) : String := (pySplit n (Char.ofNat 47)).headD ""

/-- Number of nodes whose top-level segment is `pkg` (`package_counts`). -/
def packageCount (nodes : List String) (pkg : String) : Nat :=
  (nodes.filter fun n => topSegment n = pkg).length

/-- Membership in `main_packages`: not excluded and at least 3 members. -/
def isMainPackage (nodes : List String) (pkg : String) : Bool :=
  !(excludedPackages.contains pkg) && decide (packageCount nodes pkg ≥ 3)

/-- The collapsed form `_collapse_to_top_level` assigns to one node: two
segments for main packages with at least two segments, else the top one. -/
def collapseTopLevel (nodes : List String) (n : String) : String :=
  let parts := pySplit n (Char.ofNat 47)
  if isMainPackage nodes (topSegment n) && decide (parts.length ≥ 2) then
    pyJoin "/" (parts.take 2)
  else topSegment n

/-- `node_mapping.get(x)` of `_collapse_to_top_level`: only nodes whose top
segment is not excluded were entered into the dict. -/
def topLevelMapGet (nodes : List String) (x : String) : Option String :=
  if x ∈ nodes ∧ ¬(excludedPackages.contains (topSegment x)) then
    some (collapseTopLevel nodes x)
  else none

/-- The body of the edge loop of `_collapse_to_top_level`: drop edges
touching an excluded package, look both endpoints up in the node mapping,
and keep the collapsed pair when both are truthy and distinct
(`if collapsed_source and collapsed_target and collapsed_source != collapsed_target`). -/
def collapseEdge (nodes : List String) (p : String × String) : Option (String × String) :=
  if excludedPackages.contains (topSegment p.1) || excludedPackages.contains (topSegment p.2) then
    none
  else
    match topLevelMapGet nodes p.1, topLevelMapGet nodes p.2 with
    | some a, some b =>
      if !(a = "") && !(b = "") && !(a = b) then some (a, b) else none
    | _, _ => none

/-- `_collapse_to_top_level`: map the non-excluded nodes through
`collapseTopLevel` into a set, and collapse the edges through
`collapseEdge`; return `sorted(nodes)` and `list(set(edges))` (through `f`). -/
def collapse_to_top_level (f : List (String × String) → List (String × String))
    (nodes : List String) (edges : List (String × String)) :
    List String × List (String × String) :=
  let collapsedNodes :=
    pySortedSet ((nodes.filter fun n => !(excludedPackages.contains (topSegment n))).map
      (collapseTopLevel nodes))
  (collapsedNodes, f (edges.filterMap (collapseEdge nodes)))

/-- The collapsed form `_group_submodules` assigns to one node: at most the
first two path segments. -/
def groupCollapse (n : String) : String :=
  let parts := pySplit n (Char.ofNat 47)
  if parts.length > 2 then pyJoin "/" (parts.take 2) else n

/-- `node_mapping.get(x, x)` of `_group_submodules` (every node is in the
dict; a non-node defaults to itself). -/
def groupMapGet (nodes : List String) (x : String) : String :=
  if x ∈ nodes then groupCollapse x else x

/-- `_group_submodules`: collapse every node to at most two segments,
drop edges that become self-loops, deduplicate; `sorted` nodes and
`list(set(edges))` (through `f`). -/
def group_submodules (f : List (String × String) → List (String × String))
    (nodes : List String) (edges : List (String × String)) :
    List String × List (String × String) :=
  let groupedNodes := pySortedSet (nodes.map groupCollapse)
  let candidates :=
    (edges.map fun p => (groupMapGet nodes p.1, groupMapGet nodes p.2)).filter fun p =>
      !(p.1 = p.2)
  (groupedNodes, f candidates)

/-- `_sanitize_node_id`: map `/`, `-`, `.` to `_`; prefix `m{index}_` when
the result does not start with a letter; `m{index}` when empty. -/
def sanitize_node_id (node : String) (index : Nat) : String :=
  let s := replaceChar (replaceChar (replaceChar node (Char.ofNat 47) (Char.ofNat 95))
    (Char.ofNat 45) (Char.ofNat 95)) (Char.ofNat 46) (Char.ofNat 95)
  match s.data with
  | [] => "m" ++ toString index
  | c :: _ => if ¬c.isAlpha then "m" ++ toString index ++ "_" ++ s else s

/-- `_get_display_name`: last path segment (falling back to the first, then
to "unnamed"), with quotes and square brackets replaced. -/
def get_display_name (node : String) : String :=
  if node = "" ∨ pyStrip node = "" then "unnamed"
  else
    let parts := pySplit node (Char.ofNat 47)
    let name := parts.getLastD node
    let name := if name = "" ∨ pyStrip name = "" then parts.headD "unnamed" else name
    let name := replaceChar (replaceChar (replaceChar name dqChar sqChar)
      (Char.ofNat 91) (Char.ofNat 40)) (Char.ofNat 93) (Char.ofNat 41)
    if name = "" then "unnamed" else name

/-- `NODE_SHAPES["cli"]` applied to a display name. -/
def shapeCli (d : String) : String := lbStr ++ dqStr ++ d ++ dqStr ++ rbStr

/-- `NODE_SHAPES["api"]` applied to a display name. -/
def shapeApi (d : String) : String := "([" ++ dqStr ++ d ++ dqStr ++ "])"

/-- `NODE_SHAPES["models"]` applied to a display name. -/
def shapeModels (d : String) : String := "[[" ++ dqStr ++ d ++ dqStr ++ "]]"

/-- `NODE_SHAPES["services"]` (also the default) applied to a display name. -/
def shapeServices (d : String) : String := "[" ++ dqStr ++ d ++ dqStr ++ "]"

/-- `NODE_SHAPES["utils"]` applied to a display name. -/
def shapeUtils (d : String) : String := "(" ++ dqStr ++ d ++ dqStr ++ ")"

/-- `_get_node_shape`: substring-keyed shape selection on the lowered path. -/
def get_node_shape (node displayName : String) : String :=
  let l := pyLower node
  if containsS l "cli" || containsS l "command" then shapeCli displayName
  else if containsS l "api" || containsS l "endpoint" || containsS l "route" then
    shapeApi displayName
  else if containsS l "model" || containsS l "schema" || containsS l "entity" then
    shapeModels displayName
  else if containsS l "util" || containsS l "helper" || containsS l "common" then
    shapeUtils displayName
  else if containsS l "service" || containsS l "handler" then shapeServices displayName
  else shapeServices displayName

/-- The `%%{init: ...}%%` first line of every generated flowchart. -/
def mermaidInitLine : String :=
  "%%" ++ lbStr ++ "init: " ++ lbStr ++ sqStr ++ "flowchart" ++ sqStr ++ ": " ++ lbStr
    ++ sqStr ++ "curve" ++ sqStr ++ ": " ++ sqStr ++ "linear" ++ sqStr ++ rbStr ++ rbStr
    ++ rbStr ++ "%%"

/-- Python truthiness filter `n and n.strip()` used on node names. -/
def truthyName (n : String) : Bool := !(n = "") && !(pyStrip n = "")

/-- `_generate_mermaid_syntax` (named without the source's last word):
header lines, one definition line per valid node, a blank line, and one
line per edge whose endpoints are valid nodes. -/
def generate_mermaid_text (nodes : List String) (edges : List (String × String))
    (title : String) : String :=
  let validNodes := nodes.filter truthyName
  let nodeIds := validNodes.enum.map fun p => (p.2, sanitize_node_id p.2 p.1)
  let nodeLines := validNodes.map fun n =>
    let nid := (dictGetLast nodeIds n).getD ""
    let dn := get_display_name n
    let dn := if dn = "" ∨ pyStrip dn = "" then nid else dn
    "    " ++ nid ++ get_node_shape n dn
  let edgeLines := edges.filterMap fun p =>
    if !truthyName p.1 || !truthyName p.2 then none
    else
      match dictGetLast nodeIds p.1, dictGetLast nodeIds p.2 with
      | some s, some t => some ("    " ++ s ++ " --> " ++ t)
      | _, _ => none
  pyJoin "\n"
    ([mermaidInitLine, "flowchart TD", "    %% " ++ title, ""] ++ nodeLines ++ [""] ++ edgeLines)

/-- `MermaidGenerator.generate_module_flowchart` /
`generate_module_flowchart`: empty graphs get a fixed placeholder; more
than 30 nodes collapse to top level; more than 15 group submodules; else
full detail. -/
def generate_module_flowchart (f : List (String × String) → List (String × String))
    (g : ImportGraph) (title : String := "Module Dependencies") : ModuleFlowDiagram :=
  if g.nodes.isEmpty then
    { mermaid := "flowchart TD\n    empty[No modules detected]", node_count := 0,
      simplified := false, title := title }
  else if g.nodes.length > MAX_NODES_MODULE_LEVEL then
    let r := collapse_to_top_level f g.nodes g.edges
    { mermaid := generate_mermaid_text r.1 r.2 title, node_count := r.1.length,
      simplified := true, title := title }
  else if g.nodes.length > MAX_NODES_FULL_DETAIL then
    let r := group_submodules f g.nodes g.edges
    { mermaid := generate_mermaid_text r.1 r.2 title, node_count := r.1.length,
      simplified := true, title := title }
  else
    { mermaid := generate_mermaid_text g.nodes g.edges title, node_count := g.nodes.length,
      simplified := false, title := title }

/-! ## Concrete inputs for witnesses and counterexamples -/

/-- A 3-module Python repository whose root module imports the other two
(yields two distinct import-graph edges). -/
def twoEdgeModules : List AstModule :=
  [{ path := "a.py", language := "python", imports := ["import b", "import c"] },
   { path := "b.py", language := "python" },
   { path := "c.py", language := "python" }]

/-- A 15-node import graph (threshold witness). -/
def fifteenNodeGraph : ImportGraph :=
  { nodes := ["m01", "m02", "m03", "m04", "m05", "m06", "m07", "m08", "m09", "m10",
              "m11", "m12", "m13", "m14", "m15"] }

/-! ## Generic lemmas about `execStages` -/

theorem execStages_trace_sublist (specs : List StageSpec) (aux : AuxState) :
    (execStages specs aux).1.Sublist (specs.map StageSpec.stage) := by
  induction specs generalizing aux with
  | nil => simp [execStages]
  | cons sp rest ih =>
    by_cases he : sp.enabled aux = true
    · rcases hact : sp.act aux with ⟨aux2, b⟩
      cases b
      · simpa [execStages, he, hact] using (ih aux2).cons₂ sp.stage
      · simp only [execStages, he, if_true, hact]
        exact (List.nil_sublist _).cons₂ _
    · simp only [execStages, he, if_false, Bool.false_eq_true, ite_false]
      exact (ih aux).cons _

theorem execStages_reach (l1 l2 : List StageSpec) (sp : StageSpec) (aux : AuxState)
    (h1 : sp.stage ∉ l1.map StageSpec.stage)
    (h2 : sp.stage ∉ l2.map StageSpec.stage)
    (hm : sp.stage ∈ (execStages (l1 ++ sp :: l2) aux).1) :
    ∃ pre post, (execStages (l1 ++ sp :: l2) aux).1 = pre ++ sp.stage :: post ∧
      ∀ sp0 ∈ l1, (∀ a, sp0.enabled a = true) → sp0.stage ∈ pre := by
  induction l1 generalizing aux with
  | nil =>
    simp only [List.nil_append] at hm ⊢
    by_cases he : sp.enabled aux = true
    · rcases hact : sp.act aux with ⟨aux2, b⟩
      cases b
      · exact ⟨[], (execStages l2 aux2).1, by simp [execStages, he, hact], by simp⟩
      · exact ⟨[], [], by simp [execStages, he, hact], by simp⟩
    · exfalso
      apply h2
      have hs := execStages_trace_sublist l2 aux
      apply hs.subset
      simpa [execStages, he] using hm
  | cons sph t ih =>
    have h1t : sp.stage ∉ t.map StageSpec.stage := by
      intro hx; exact h1 (by simp [hx])
    have h1h : ¬(sp.stage = sph.stage) := by
      intro hx; exact h1 (by simp [hx])
    by_cases he : sph.enabled aux = true
    · rcases hact : sph.act aux with ⟨aux2, b⟩
      cases b
      · have hm' : sp.stage ∈ (execStages (t ++ sp :: l2) aux2).1 := by
          have := hm
          simp only [List.cons_append, execStages, he, if_true, hact] at this
          rcases List.mem_cons.mp this with hx | hx
          · exact absurd hx h1h
          · exact hx
        obtain ⟨pre, post, heq, hpre⟩ := ih aux2 h1t hm'
        refine ⟨sph.stage :: pre, post, ?_, ?_⟩
        · simp only [List.cons_append, execStages, he, if_true, hact]
          exact congrArg (sph.stage :: ·) heq
        · intro sp0 hsp0 hen
          rcases List.mem_cons.mp hsp0 with rfl | hsp0
          · exact List.mem_cons_self _ _
          · exact List.mem_cons_of_mem _ (hpre sp0 hsp0 hen)
      · exfalso
        have := hm
        simp only [List.cons_append, execStages, he, if_true, hact, List.mem_singleton] at this
        exact h1h this
    · have he' : sph.enabled aux = false := by simpa using he
      have hm' : sp.stage ∈ (execStages (t ++ sp :: l2) aux).1 := by
        simpa [execStages, he'] using hm
      obtain ⟨pre, post, heq, hpre⟩ := ih aux h1t hm'
      refine ⟨pre, post, ?_, ?_⟩
      · rw [List.cons_append]
        simp only [execStages, he', Bool.false_eq_true, if_false]
        exact heq
      · intro sp0 hsp0 hen
        rcases List.mem_cons.mp hsp0 with rfl | hsp0
        · exact absurd (hen aux) (by simp [he'])
        · exact hpre sp0 hsp0 hen

theorem execStages_errors_mono (specs : List StageSpec) (aux : AuxState) (e : AnalysisError)
    (happ : ∀ sp ∈ specs, ∀ a : AuxState, ∃ newErrs, ((sp.act a).1).errors = a.errors ++ newErrs)
    (he : e ∈ aux.errors) : e ∈ ((execStages specs aux).2.1).errors := by
  induction specs generalizing aux with
  | nil => simpa [execStages] using he
  | cons sp rest ih =>
    have happt : ∀ sp0 ∈ rest, ∀ a : AuxState,
        ∃ newErrs, ((sp0.act a).1).errors = a.errors ++ newErrs :=
      fun sp0 h a => happ sp0 (List.mem_cons_of_mem _ h) a
    by_cases hen : sp.enabled aux = true
    · rcases hact : sp.act aux with ⟨aux2, b⟩
      have he2 : e ∈ aux2.errors := by
        obtain ⟨newErrs, hnew⟩ := happ sp (List.mem_cons_self _ _) aux
        rw [hact] at hnew
        replace hnew : aux2.errors = aux.errors ++ newErrs := hnew
        rw [hnew]
        exact List.mem_append_left _ he
      cases b
      · simpa [execStages, hen, hact] using ih aux2 happt he2
      · simpa [execStages, hen, hact] using he2
    · simpa [execStages, hen] using ih aux happt he

theorem execStages_errors_all (specs : List StageSpec) (aux : AuxState)
    (P : AnalysisError → Prop)
    (hacts : ∀ sp ∈ specs, ∀ a : AuxState, ∀ e, e ∈ ((sp.act a).1).errors → e ∈ a.errors ∨ P e)
    (h0 : ∀ e ∈ aux.errors, P e) :
    ∀ e ∈ ((execStages specs aux).2.1).errors, P e := by
  induction specs generalizing aux with
  | nil => simpa [execStages] using h0
  | cons sp rest ih =>
    have hactst : ∀ sp0 ∈ rest, ∀ a : AuxState, ∀ e,
        e ∈ ((sp0.act a).1).errors → e ∈ a.errors ∨ P e :=
      fun sp0 h a => hacts sp0 (List.mem_cons_of_mem _ h) a
    by_cases hen : sp.enabled aux = true
    · rcases hact : sp.act aux with ⟨aux2, b⟩
      have h2 : ∀ e ∈ aux2.errors, P e := by
        intro e he
        have := hacts sp (List.mem_cons_self _ _) aux e (by rw [hact]; exact he)
        rcases this with hx | hx
        · exact h0 e hx
        · exact hx
      cases b
      · simpa [execStages, hen, hact] using ih aux2 hactst h2
      · simpa [execStages, hen, hact] using h2
    · simpa [execStages, hen] using ih aux hactst h0

theorem execStages_effect (l1 l2 : List StageSpec) (sp : StageSpec) (aux : AuxState)
    (e : AnalysisError)
    (happ : ∀ sp0 ∈ l1 ++ sp :: l2, ∀ a : AuxState,
      ∃ newErrs, ((sp0.act a).1).errors = a.errors ++ newErrs)
    (heff : ∀ a : AuxState, e ∈ ((sp.act a).1).errors)
    (h1 : sp.stage ∉ l1.map StageSpec.stage)
    (h2 : sp.stage ∉ l2.map StageSpec.stage)
    (hm : sp.stage ∈ (execStages (l1 ++ sp :: l2) aux).1) :
    e ∈ ((execStages (l1 ++ sp :: l2) aux).2.1).errors := by
  induction l1 generalizing aux with
  | nil =>
    simp only [List.nil_append] at hm ⊢
    by_cases he : sp.enabled aux = true
    · rcases hact : sp.act aux with ⟨aux2, b⟩
      have he2 : e ∈ aux2.errors := by
        have := heff aux; rw [hact] at this; exact this
      cases b
      · have happl2 : ∀ sp0 ∈ l2, ∀ a : AuxState,
            ∃ newErrs, ((sp0.act a).1).errors = a.errors ++ newErrs :=
          fun sp0 h a => happ sp0 (by simp [h]) a
        simpa [execStages, he, hact] using execStages_errors_mono l2 aux2 e happl2 he2
      · simpa [execStages, he, hact] using he2
    · exfalso
      apply h2
      have hs := execStages_trace_sublist l2 aux
      apply hs.subset
      simpa [execStages, he] using hm
  | cons sph t ih =>
    have h1t : sp.stage ∉ t.map StageSpec.stage := by
      intro hx; exact h1 (by simp [hx])
    have h1h : ¬(sp.stage = sph.stage) := by
      intro hx; exact h1 (by simp [hx])
    have happt : ∀ sp0 ∈ t ++ sp :: l2, ∀ a : AuxState,
        ∃ newErrs, ((sp0.act a).1).errors = a.errors ++ newErrs :=
      fun sp0 h a => happ sp0 (by simpa using Or.inr (by simpa using h)) a
    by_cases he : sph.enabled aux = true
    · rcases hact : sph.act aux with ⟨aux2, b⟩
      cases b
      · have hm' : sp.stage ∈ (execStages (t ++ sp :: l2) aux2).1 := by
          have := hm
          simp only [List.cons_append, execStages, he, if_true, hact] at this
          rcases List.mem_cons.mp this with hx | hx
          · exact absurd hx h1h
          · exact hx
        simpa [execStages, he, hact] using ih aux2 happt h1t hm'
      · exfalso
        have := hm
        simp only [List.cons_append, execStages, he, if_true, hact, List.mem_singleton] at this
        exact h1h this
    · have hm' : sp.stage ∈ (execStages (t ++ sp :: l2) aux).1 := by
        simpa [execStages, he] using hm
      simpa [execStages, he] using ih aux happt h1t hm'

/-! ## Run-level helper lemmas -/

theorem run_trace_eq (opts : PipelineOptions) (env : StageEnv) :
    (AnalysisPipeline.run opts env).trace = (execStages (pipelineSpecs opts env) {}).1 := by
  simp only [AnalysisPipeline.run]
  split <;> rfl

theorem run_errors_mem (opts : PipelineOptions) (env : StageEnv) (e : AnalysisError)
    (h : e ∈ ((execStages (pipelineSpecs opts env) {}).2.1).errors) :
    e ∈ (AnalysisPipeline.run opts env).errors := by
  simp only [AnalysisPipeline.run]
  split
  · exact List.mem_append_left _ h
  · exact h

theorem run_dependency_append_only (opts : PipelineOptions) (outcome : StageOutcome)
    (aux : AuxState) :
    ∃ newErrs, ((run_dependency_analysis opts outcome aux).1).errors = aux.errors ++ newErrs := by
  cases outcome <;> first
    | exact ⟨_, rfl⟩
    | exact ⟨[], by simp [run_dependency_analysis]⟩

theorem run_repomix_append_only (outcome : StageOutcome) (aux : AuxState) :
    ∃ newErrs, ((run_repomix_compression outcome aux).1).errors = aux.errors ++ newErrs := by
  cases outcome
  · exact ⟨[], by simp [run_repomix_compression]⟩
  · exact ⟨_, rfl⟩
  · exact ⟨_, rfl⟩

theorem run_ast_append_only (opts : PipelineOptions) (outcome : StageOutcome) (aux : AuxState) :
    ∃ newErrs, ((run_ast_analysis opts outcome aux).1).errors = aux.errors ++ newErrs := by
  cases outcome <;> first
    | exact ⟨_, rfl⟩
    | exact ⟨[], by simp [run_ast_analysis]⟩

theorem run_flow_docs_append_only (opts : PipelineOptions) (outcome : StageOutcome)
    (aux : AuxState) :
    ∃ newErrs, ((run_flow_documentation opts outcome aux).1).errors = aux.errors ++ newErrs := by
  cases outcome <;> first
    | exact ⟨_, rfl⟩
    | exact ⟨[], by simp [run_flow_documentation]⟩

theorem run_sbom_append_only (opts : PipelineOptions) (outcome : StageOutcome) (aux : AuxState) :
    ∃ newErrs, ((run_sbom_analysis opts outcome aux).1).errors = aux.errors ++ newErrs := by
  cases outcome <;> first
    | exact ⟨_, rfl⟩
    | exact ⟨[], by simp [run_sbom_analysis]⟩

theorem run_architecture_append_only (opts : PipelineOptions) (outcome : StageOutcome)
    (aux : AuxState) :
    ∃ newErrs, ((run_architecture_analysis opts outcome aux).1).errors = aux.errors ++ newErrs := by
  cases outcome <;> first
    | exact ⟨_, rfl⟩
    | exact ⟨[], by simp [run_architecture_analysis]⟩

theorem run_llm_append_only (llmEnabled : Bool) (outcome : StageOutcome) (aux : AuxState) :
    ∃ newErrs, ((run_llm_summarization llmEnabled outcome aux).1).errors = aux.errors ++ newErrs := by
  cases llmEnabled <;> cases outcome <;>
    first
      | exact ⟨_, rfl⟩
      | exact ⟨[], by simp [run_llm_summarization]⟩

theorem run_holistic_append_only (llmEnabled : Bool) (outcome : StageOutcome) (aux : AuxState) :
    ∃ newErrs, ((run_holistic_overview llmEnabled outcome aux).1).errors = aux.errors ++ newErrs := by
  cases llmEnabled <;> cases outcome <;>
    first
      | exact ⟨_, rfl⟩
      | exact ⟨[], by simp [run_holistic_overview]⟩

theorem pipelineSpecs_append_only (opts : PipelineOptions) (env : StageEnv) :
    ∀ sp ∈ pipelineSpecs opts env, ∀ a : AuxState,
      ∃ newErrs, ((sp.act a).1).errors = a.errors ++ newErrs := by
  intro sp hsp a
  simp only [pipelineSpecs, List.mem_cons, List.not_mem_nil, or_false] at hsp
  rcases hsp with rfl | rfl | rfl | rfl | rfl | rfl | rfl | rfl
  · exact run_dependency_append_only opts env.dependency_outcome a
  · exact run_repomix_append_only env.repomix_outcome a
  · exact run_ast_append_only opts env.ast_outcome a
  · exact run_flow_docs_append_only opts env.flow_docs_outcome a
  · exact run_sbom_append_only opts env.sbom_outcome a
  · exact run_architecture_append_only opts env.architecture_outcome a
  · exact run_llm_append_only env.llm_enabled env.llm_outcome a
  · exact run_holistic_append_only env.llm_enabled env.holistic_outcome a

theorem run_failed_iff_nonrecoverable (opts : PipelineOptions) (env : StageEnv) :
    (AnalysisPipeline.run opts env).status = .failed ↔
      ∃ e ∈ (AnalysisPipeline.run opts env).errors, e.recoverable = false := by
  simp only [AnalysisPipeline.run]
  by_cases hb : (execStages (pipelineSpecs opts env) {}).2.2 = true
  · simp only [hb, if_true]
    refine iff_of_true ?_ ?_
    · first | rfl | trivial
    · exact ⟨pipelineFatalError, List.mem_append_right _ (List.mem_singleton_self _), rfl⟩
  · have hb' : (execStages (pipelineSpecs opts env) {}).2.2 = false := by simpa using hb
    simp only [hb', Bool.false_eq_true, if_false]
    cases hany : ((execStages (pipelineSpecs opts env) {}).2.1).errors.any
        (fun e => !e.recoverable) with
    | true =>
      have hne : ((execStages (pipelineSpecs opts env) {}).2.1).errors.isEmpty = false := by
        rcases hl : ((execStages (pipelineSpecs opts env) {}).2.1).errors with _ | ⟨a, t⟩
        · rw [hl] at hany; simp at hany
        · simp
      simp only [hany, hne, Bool.not_false, Bool.true_and, if_true]
      refine iff_of_true ?_ ?_
      · first | rfl | trivial
      · obtain ⟨e, hmem, hrec⟩ := List.any_eq_true.mp hany
        exact ⟨e, hmem, by simpa using hrec⟩
    | false =>
      simp only [hany, Bool.and_false, Bool.false_eq_true, if_false]
      refine iff_of_false ?_ ?_
      · decide
      · rintro ⟨e, hmem, hrec⟩
        have := List.any_eq_false.mp hany e hmem
        simp [hrec] at this

/-! ## Claim theorems: pipeline (C1-C4) -/

/-- Claim C1: every `AnalysisPipeline.run` enters its enabled stages in the
fixed order dependency scan, repomix compression, AST parse, flow docs,
SBOM, architecture diagram, LLM narration, holistic narration (the trace is
a sublist of that order), and whenever the generative LLM stage runs, every
enabled deterministic stage has already run before it. -/
theorem run_fixed_order_deterministic_before_generative (opts : PipelineOptions)
    (env : StageEnv) :
    (AnalysisPipeline.run opts env).trace.Sublist pipelineStageOrder ∧
    (Stage.llm ∈ (AnalysisPipeline.run opts env).trace →
      ∃ pre post, (AnalysisPipeline.run opts env).trace = pre ++ Stage.llm :: post ∧
        ∀ s : Stage, deterministicStage s = true → stageEnabled opts s = true → s ∈ pre) := by
  have htr := run_trace_eq opts env
  constructor
  · rw [htr]
    have hs := execStages_trace_sublist (pipelineSpecs opts env) {}
    have hmap : (pipelineSpecs opts env).map StageSpec.stage = pipelineStageOrder := rfl
    rwa [hmap] at hs
  · intro hm
    rw [htr] at hm ⊢
    have hdecomp : pipelineSpecs opts env =
        [depSpec opts env, repomixSpec opts env, astSpec opts env, flowDocsSpec opts env,
         sbomSpec opts env, archSpec opts env] ++ llmSpec opts env :: [holisticSpec opts env] :=
      rfl
    rw [hdecomp] at hm ⊢
    have h1 : (llmSpec opts env).stage ∉
        ([depSpec opts env, repomixSpec opts env, astSpec opts env, flowDocsSpec opts env,
          sbomSpec opts env, archSpec opts env].map StageSpec.stage) := by
      simp [depSpec, repomixSpec, astSpec, flowDocsSpec, sbomSpec, archSpec, llmSpec]
    have h2 : (llmSpec opts env).stage ∉ ([holisticSpec opts env].map StageSpec.stage) := by
      simp [holisticSpec, llmSpec]
    obtain ⟨pre, post, heq, hpre⟩ := execStages_reach _ _ _ _ h1 h2 hm
    refine ⟨pre, post, heq, ?_⟩
    intro s hdet hen
    cases s with
    | dependency =>
      exact hpre (depSpec opts env) (List.mem_cons_self _ _)
        (fun a => by simpa [depSpec, stageEnabled] using hen)
    | repomix =>
      exact hpre (repomixSpec opts env)
        (List.mem_cons_of_mem _ (List.mem_cons_self _ _))
        (fun a => by simpa [repomixSpec, stageEnabled] using hen)
    | ast =>
      exact hpre (astSpec opts env)
        (List.mem_cons_of_mem _ (List.mem_cons_of_mem _ (List.mem_cons_self _ _)))
        (fun a => by simpa [astSpec, stageEnabled] using hen)
    | flowDocs =>
      exact hpre (flowDocsSpec opts env)
        (List.mem_cons_of_mem _ (List.mem_cons_of_mem _ (List.mem_cons_of_mem _
          (List.mem_cons_self _ _))))
        (fun a => by simpa [flowDocsSpec, stageEnabled] using hen)
    | sbom =>
      exact hpre (sbomSpec opts env)
        (List.mem_cons_of_mem _ (List.mem_cons_of_mem _ (List.mem_cons_of_mem _
          (List.mem_cons_of_mem _ (List.mem_cons_self _ _)))))
        (fun a => by simpa [sbomSpec, stageEnabled] using hen)
    | architecture =>
      exact hpre (archSpec opts env)
        (List.mem_cons_of_mem _ (List.mem_cons_of_mem _ (List.mem_cons_of_mem _
          (List.mem_cons_of_mem _ (List.mem_cons_of_mem _ (List.mem_cons_self _ _))))))
        (fun a => by simpa [archSpec, stageEnabled] using hen)
    | llm => simp [deterministicStage] at hdet
    | holistic => simp [deterministicStage] at hdet

/-- Closed witness for C1: with every stage enabled and succeeding, the LLM
stage runs and all deterministic stages precede it. -/
theorem run_fixed_order_deterministic_before_generative_witness :
    Stage.llm ∈ (AnalysisPipeline.run {} {}).trace ∧
    (∃ pre post, (AnalysisPipeline.run {} {}).trace = pre ++ Stage.llm :: post ∧
      ∀ s : Stage, deterministicStage s = true → stageEnabled {} s = true → s ∈ pre) :=
  ⟨by decide, (run_fixed_order_deterministic_before_generative {} {}).2 (by decide)⟩

/-- Claim C2: a run's final status is `failed` exactly when some recorded
error is non-recoverable, on the normal and the escaping-exception path. -/
theorem run_status_failed_iff_nonrecoverable_error (opts : PipelineOptions) (env : StageEnv) :
    (AnalysisPipeline.run opts env).status = .failed ↔
      ∃ e ∈ (AnalysisPipeline.run opts env).errors, e.recoverable = false :=
  run_failed_iff_nonrecoverable opts env

/-- Counterexample for C3 as stated: with `fail_fast` set and the repomix
compression stage raising, the exception does *not* propagate -- the stage
records a recoverable error, later stages still execute, and the run
completes. -/
theorem repomix_fail_fast_does_not_halt :
    (AnalysisPipeline.run { fail_fast := true } { repomix_outcome := .execFailed }).trace
        = [.dependency, .repomix, .ast, .flowDocs, .sbom, .architecture, .llm] ∧
    (AnalysisPipeline.run { fail_fast := true } { repomix_outcome := .execFailed }).errors
        = [repomixStageError] ∧
    (AnalysisPipeline.run { fail_fast := true } { repomix_outcome := .execFailed }).status
        = .completed := by
  refine ⟨?_, ?_, ?_⟩ <;> decide

/-- Claim C3 (amended): an exception inside the dependency, AST and
flow-documentation stages, and an execution failure in the SBOM and
architecture stages, is recorded as a recoverable error and propagates
(halting the run) exactly when `fail_fast` is set; but the repomix stage
and the SBOM/architecture tool-not-available cases record a recoverable
error and never propagate, even under `fail_fast`; and LLM unavailability
is recorded as non-recoverable and always propagates. -/
theorem stage_failure_handling (opts : PipelineOptions) (env : StageEnv) (aux : AuxState)
    (outcome : StageOutcome) :
    (outcome ≠ .ok →
      run_dependency_analysis opts outcome aux
          = ({ aux with errors := aux.errors ++ [dependencyStageError] }, opts.fail_fast) ∧
      run_ast_analysis opts outcome aux
          = ({ aux with errors := aux.errors ++ [astStageError] }, opts.fail_fast) ∧
      run_flow_documentation opts outcome aux
          = ({ aux with errors := aux.errors ++ [flowDocsStageError] }, opts.fail_fast) ∧
      run_repomix_compression outcome aux
          = ({ aux with errors := aux.errors ++ [repomixStageError] }, false)) ∧
    run_sbom_analysis opts .toolNotAvailable aux
        = ({ aux with errors := aux.errors ++ [sbomStageError] }, false) ∧
    run_sbom_analysis opts .execFailed aux
        = ({ aux with errors := aux.errors ++ [sbomStageError] }, opts.fail_fast) ∧
    run_architecture_analysis opts .toolNotAvailable aux
        = ({ aux with errors := aux.errors ++ [architectureStageError] }, false) ∧
    run_architecture_analysis opts .execFailed aux
        = ({ aux with errors := aux.errors ++ [architectureStageError] }, opts.fail_fast) ∧
    run_llm_summarization true .toolNotAvailable aux
        = ({ aux with errors := aux.errors ++ [llmStageError] }, true) ∧
    llmStageError.recoverable = false ∧
    (opts.fail_fast = true → opts.skip_dependencies = false → env.dependency_outcome ≠ .ok →
      (AnalysisPipeline.run opts env).trace = [Stage.dependency] ∧
      (AnalysisPipeline.run opts env).status = .failed) := by
  refine ⟨?_, rfl, rfl, rfl, rfl, rfl, rfl, ?_⟩
  · intro hne
    cases outcome with
    | ok => exact absurd rfl hne
    | toolNotAvailable => exact ⟨rfl, rfl, rfl, rfl⟩
    | execFailed => exact ⟨rfl, rfl, rfl, rfl⟩
  · intro hff hskip hne
    have hout : run_dependency_analysis opts env.dependency_outcome {}
        = ({ errors := [dependencyStageError] }, true) := by
      cases h : env.dependency_outcome with
      | ok => exact absurd h hne
      | toolNotAvailable => simp [run_dependency_analysis, hff]
      | execFailed => simp [run_dependency_analysis, hff]
    constructor
    · rw [run_trace_eq]
      simp [pipelineSpecs, execStages, depSpec, hskip, hout]
    · simp only [AnalysisPipeline.run]
      have : (execStages (pipelineSpecs opts env) {}).2.2 = true := by
        simp [pipelineSpecs, execStages, depSpec, hskip, hout]
      simp [this]

/-- Closed witness for the amended C3: a failing dependency stage under
`fail_fast` halts the run after stage one. -/
theorem stage_failure_handling_witness :
    StageOutcome.execFailed ≠ StageOutcome.ok ∧
    (AnalysisPipeline.run { fail_fast := true } { dependency_outcome := .execFailed }).trace
        = [Stage.dependency] :=
  ⟨by decide,
   (((stage_failure_handling { fail_fast := true } { dependency_outcome := .execFailed }
      {} .execFailed).2.2.2.2.2.2.2) rfl rfl (by decide)).1⟩

theorem llm_prop_append {a : List AnalysisError} {e err : AnalysisError}
    (he : e ∈ a ++ [err]) (hP : err.component = "llm" → err.recoverable = false) :
    e ∈ a ∨ (e.component = "llm" → e.recoverable = false) := by
  rcases List.mem_append.mp he with hx | hx
  · exact Or.inl hx
  · right; rw [List.mem_singleton.mp hx]; exact hP

/-- Claim C4: in any run where the generative stage actually executes with
the LLM enabled but unavailable (client creation fails or the availability
check fails), a non-recoverable `llm` error is recorded, the run ends
`failed`, and no `llm`-component error is ever recorded as recoverable. -/
theorem llm_unavailable_is_fatal (opts : PipelineOptions) (env : StageEnv)
    (h1 : env.llm_enabled = true) (h2 : env.llm_outcome = .toolNotAvailable)
    (h3 : Stage.llm ∈ (AnalysisPipeline.run opts env).trace) :
    (∃ e ∈ (AnalysisPipeline.run opts env).errors,
        e.component = "llm" ∧ e.recoverable = false) ∧
    (AnalysisPipeline.run opts env).status = .failed ∧
    (∀ e ∈ (AnalysisPipeline.run opts env).errors,
        e.component = "llm" → e.recoverable = false) := by
  have hdecomp : pipelineSpecs opts env =
      [depSpec opts env, repomixSpec opts env, astSpec opts env, flowDocsSpec opts env,
       sbomSpec opts env, archSpec opts env] ++ llmSpec opts env :: [holisticSpec opts env] :=
    rfl
  have hm : Stage.llm ∈ (execStages (pipelineSpecs opts env) {}).1 := by
    rw [← run_trace_eq]; exact h3
  have hmem : llmStageError ∈ ((execStages (pipelineSpecs opts env) {}).2.1).errors := by
    rw [hdecomp] at hm ⊢
    refine execStages_effect _ _ _ _ _ ?_ ?_ ?_ ?_ hm
    · intro sp0 hsp0 a
      rw [← hdecomp] at hsp0
      exact pipelineSpecs_append_only opts env sp0 hsp0 a
    · intro a
      simp [llmSpec, run_llm_summarization, h1, h2]
    · simp [depSpec, repomixSpec, astSpec, flowDocsSpec, sbomSpec, archSpec, llmSpec]
    · simp [holisticSpec, llmSpec]
  have hrunmem : llmStageError ∈ (AnalysisPipeline.run opts env).errors :=
    run_errors_mem opts env _ hmem
  have hall : ∀ e ∈ (AnalysisPipeline.run opts env).errors,
      e.component = "llm" → e.recoverable = false := by
    have hexec : ∀ e ∈ ((execStages (pipelineSpecs opts env) {}).2.1).errors,
        e.component = "llm" → e.recoverable = false := by
      refine execStages_errors_all _ _ _ ?_ (by simp)
      intro sp hsp a e he
      simp only [pipelineSpecs, List.mem_cons, List.not_mem_nil, or_false] at hsp
      rcases hsp with rfl | rfl | rfl | rfl | rfl | rfl | rfl | rfl
      · rcases hout : env.dependency_outcome with _ | _ | _ <;>
          simp only [depSpec, run_dependency_analysis, hout] at he
        all_goals first
          | exact Or.inl he
          | exact llm_prop_append he (by decide)
      · rcases hout : env.repomix_outcome with _ | _ | _ <;>
          simp only [repomixSpec, run_repomix_compression, hout] at he
        all_goals first
          | exact Or.inl he
          | exact llm_prop_append he (by decide)
      · rcases hout : env.ast_outcome with _ | _ | _ <;>
          simp only [astSpec, run_ast_analysis, hout] at he
        all_goals first
          | exact Or.inl he
          | exact llm_prop_append he (by decide)
      · rcases hout : env.flow_docs_outcome with _ | _ | _ <;>
          simp only [flowDocsSpec, run_flow_documentation, hout] at he
        all_goals first
          | exact Or.inl he
          | exact llm_prop_append he (by decide)
      · rcases hout : env.sbom_outcome with _ | _ | _ <;>
          simp only [sbomSpec, run_sbom_analysis, hout] at he
        all_goals first
          | exact Or.inl he
          | exact llm_prop_append he (by decide)
      · rcases hout : env.architecture_outcome with _ | _ | _ <;>
          simp only [archSpec, run_architecture_analysis, hout] at he
        all_goals first
          | exact Or.inl he
          | exact llm_prop_append he (by decide)
      · rcases hen : env.llm_enabled with _ | _ <;>
          rcases hout : env.llm_outcome with _ | _ | _ <;>
            simp only [llmSpec, run_llm_summarization, hen, hout] at he
        all_goals first
          | exact Or.inl he
          | exact llm_prop_append he (by decide)
      · rcases hen : env.llm_enabled with _ | _ <;>
          rcases hout : env.holistic_outcome with _ | _ | _ <;>
            simp only [holisticSpec, run_holistic_overview, hen, hout] at he
        all_goals first
          | exact Or.inl he
          | exact llm_prop_append he (by decide)
    intro e he hc
    simp only [AnalysisPipeline.run] at he
    revert he
    split
    · intro he
      rcases List.mem_append.mp he with hx | hx
      · exact hexec e hx hc
      · rw [List.mem_singleton.mp hx]; rfl
    · intro he
      exact hexec e he hc
  refine ⟨⟨llmStageError, hrunmem, rfl, rfl⟩, ?_, hall⟩
  exact (run_failed_iff_nonrecoverable opts env).mpr ⟨llmStageError, hrunmem, rfl⟩

/-- Closed witness for C4: default options, LLM enabled but unavailable. -/
theorem llm_unavailable_is_fatal_witness :
    Stage.llm ∈ (AnalysisPipeline.run {} { llm_outcome := .toolNotAvailable }).trace ∧
    ((∃ e ∈ (AnalysisPipeline.run {} { llm_outcome := .toolNotAvailable }).errors,
        e.component = "llm" ∧ e.recoverable = false) ∧
      (AnalysisPipeline.run {} { llm_outcome := .toolNotAvailable }).status = .failed ∧
      (∀ e ∈ (AnalysisPipeline.run {} { llm_outcome := .toolNotAvailable }).errors,
        e.component = "llm" → e.recoverable = false)) :=
  ⟨by decide, llm_unavailable_is_fatal {} { llm_outcome := .toolNotAvailable } rfl rfl (by decide)⟩

/-! ## List and string helper lemmas -/

theorem mem_insertSorted (x : String) (l : List String) (a : String) :
    a ∈ insertSorted x l ↔ a = x ∨ a ∈ l := by
  induction l with
  | nil => simp [insertSorted]
  | cons y t ih =>
    simp only [insertSorted]
    split
    · simp only [List.mem_cons, ih]
      tauto
    · simp only [List.mem_cons]

theorem mem_pySortedSet (l : List String) (a : String) :
    a ∈ pySortedSet l ↔ a ∈ l := by
  unfold pySortedSet
  rw [show (a ∈ l ↔ a ∈ l.dedup) from (List.mem_dedup).symm]
  generalize l.dedup = m
  induction m with
  | nil => simp
  | cons y t ih => simp [mem_insertSorted, ih]

theorem isSetOrder_dedup : IsSetOrder List.dedup :=
  fun l => ⟨List.nodup_dedup l, fun _ => List.mem_dedup⟩

theorem isSetOrder_dedup_reverse : IsSetOrder (fun l => l.dedup.reverse) :=
  fun l => ⟨List.nodup_reverse.mpr (List.nodup_dedup l),
    fun x => by simp [List.mem_reverse, List.mem_dedup]⟩

theorem isPre_iff_append (p l : List Char) : isPre p l = true ↔ ∃ t, l = p ++ t := by
  induction p generalizing l with
  | nil => simp [isPre]
  | cons a s ih =>
    cases l with
    | nil => simp [isPre]
    | cons b t =>
      simp only [isPre, Bool.and_eq_true, decide_eq_true_eq, ih, List.cons_append,
        List.cons.injEq]
      constructor
      · rintro ⟨rfl, u, rfl⟩
        exact ⟨u, rfl, rfl⟩
      · rintro ⟨u, rfl, rfl⟩
        exact ⟨rfl, u, rfl⟩

/-! ## Claim C8 and C10 -/

/-- Claim C8: `is_direct` holds exactly when the name matches a
manifest-declared entry of the ecosystem under its normalization: exact
match for npm (scoped names only match themselves), separator-and-case
insensitive match for pypi, and exact match for go and maven. -/
theorem is_direct_iff_declared (dd : DirectDeps) (name eco : String) :
    DirectDependencyResolver.is_direct dd name eco = true ↔
      ((eco = "npm" ∧ name ∈ dd.npm) ∨
       (eco = "pypi" ∧ ∃ d ∈ dd.pypi, normalize_pypi_name d = normalize_pypi_name name) ∨
       (eco = "go" ∧ name ∈ dd.go) ∨
       (eco = "maven" ∧ name ∈ dd.maven)) := by
  by_cases h1 : eco = "npm"
  · subst h1
    have e2 : ("npm" : String) ≠ "pypi" := by decide
    have e3 : ("npm" : String) ≠ "go" := by decide
    have e4 : ("npm" : String) ≠ "maven" := by decide
    by_cases hm : name ∈ dd.npm <;>
      simp [DirectDependencyResolver.is_direct, match_npm_package, e2, e3, e4, hm]
  · by_cases h2 : eco = "pypi"
    · subst h2
      have e1 : ("pypi" : String) ≠ "npm" := by decide
      have e3 : ("pypi" : String) ≠ "go" := by decide
      have e4 : ("pypi" : String) ≠ "maven" := by decide
      by_cases hm : name ∈ dd.pypi
      · simp [DirectDependencyResolver.is_direct, e1, e3, e4, hm]
        exact ⟨name, hm, rfl⟩
      · simp [DirectDependencyResolver.is_direct, e1, e3, e4, hm, List.any_eq_true]
    · by_cases h3 : eco = "go"
      · subst h3
        have e1 : ("go" : String) ≠ "npm" := by decide
        have e2 : ("go" : String) ≠ "pypi" := by decide
        have e4 : ("go" : String) ≠ "maven" := by decide
        by_cases hm : name ∈ dd.go <;>
          simp [DirectDependencyResolver.is_direct, e1, e2, e4, hm]
      · by_cases h4 : eco = "maven"
        · subst h4
          have e1 : ("maven" : String) ≠ "npm" := by decide
          have e2 : ("maven" : String) ≠ "pypi" := by decide
          have e3 : ("maven" : String) ≠ "go" := by decide
          by_cases hm : name ∈ dd.maven <;>
            simp [DirectDependencyResolver.is_direct, e1, e2, e3, hm]
        · simp [DirectDependencyResolver.is_direct, h1, h2, h3, h4]

/-- Claim C10: an `ImportGraph` with no nodes renders to the fixed
placeholder text with `node_count = 0` and `simplified = False`, whatever
the edge list, the title and the set ordering. -/
theorem empty_graph_placeholder (f : List (String × String) → List (String × String))
    (edges : List (String × String)) (title : String) :
    (generate_module_flowchart f { nodes := [], edges := edges } title).mermaid
        = "flowchart TD\n    empty[No modules detected]" ∧
    (generate_module_flowchart f { nodes := [], edges := edges } title).node_count = 0 ∧
    (generate_module_flowchart f { nodes := [], edges := edges } title).simplified = false := by
  refine ⟨?_, ?_, ?_⟩ <;> rfl

/-! ## Import graph invariants (C5) -/

theorem importGraphStep_inv (repoPath : String) (internal : List String)
    (acc : List String × List (String × String)) (m : AstModule)
    (hinv : ∀ p ∈ acc.2, p.1 ∈ acc.1 ∧ p.2 ∈ acc.1 ∧
      internal.contains p.2 = true ∧ p.2 ≠ "") :
    ∀ p ∈ (importGraphStep repoPath internal acc m).2,
      p.1 ∈ (importGraphStep repoPath internal acc m).1 ∧
      p.2 ∈ (importGraphStep repoPath internal acc m).1 ∧
      internal.contains p.2 = true ∧ p.2 ≠ "" := by
  intro p hp
  rcases hn : normalize_module_name repoPath m.path with _ | moduleName
  · simp only [importGraphStep, hn] at hp ⊢
    exact hinv p hp
  · simp only [importGraphStep, hn] at hp ⊢
    rcases List.mem_append.mp hp with hold | hnew
    · obtain ⟨q1, q2, q3, q4⟩ := hinv p hold
      exact ⟨List.mem_append_left _ q1, List.mem_append_left _ q2, q3, q4⟩
    · obtain ⟨n, hn1, hn2⟩ := List.mem_map.mp hnew
      obtain ⟨imp, _, himp⟩ := List.mem_filterMap.mp hn1
      have hprops : internal.contains n = true ∧ n ≠ "" := by
        revert himp
        rcases hno : normalize_imported_module imp with _ | n'
        · simp
        · simp only [Option.ite_none_right_eq_some, Option.some.injEq]
          rintro ⟨hguard, rfl⟩
          simp only [Bool.and_eq_true, Bool.not_eq_true', decide_eq_false_iff_not] at hguard
          exact ⟨hguard.2, hguard.1⟩
      subst hn2
      refine ⟨?_, ?_, hprops.1, hprops.2⟩
      · exact List.mem_append_right _ (List.mem_cons_self _ _)
      · exact List.mem_append_right _ (List.mem_cons_of_mem _ hn1)

theorem importGraph_fold_inv (repoPath : String) (internal : List String)
    (ms : List AstModule) (acc : List String × List (String × String))
    (hinv : ∀ p ∈ acc.2, p.1 ∈ acc.1 ∧ p.2 ∈ acc.1 ∧
      internal.contains p.2 = true ∧ p.2 ≠ "") :
    ∀ p ∈ (ms.foldl (importGraphStep repoPath internal) acc).2,
      p.1 ∈ (ms.foldl (importGraphStep repoPath internal) acc).1 ∧
      p.2 ∈ (ms.foldl (importGraphStep repoPath internal) acc).1 ∧
      internal.contains p.2 = true ∧ p.2 ≠ "" := by
  induction ms generalizing acc with
  | nil => simpa using hinv
  | cons m t ih =>
    simp only [List.foldl_cons]
    exact ih _ (importGraphStep_inv repoPath internal acc m hinv)

/-- Claim C5 (amended): in every graph produced by `build_import_graph`,
both endpoints of every edge are nodes, the edge list has no duplicates,
every edge target resolved to a (truthy) member of the internal-module
list, and any imported name still carrying a parent-relative `../` prefix
at resolution time is dropped.  (A JS `../` import is stripped of its
leading `.`/`/` characters by the extractor, so it can resolve to an
internal module and produce an edge; see the counterexample.) -/
theorem import_graph_edge_invariants (f : List (String × String) → List (String × String))
    (hf : IsSetOrder f) (repoPath : String) (astModules : List AstModule)
    (detected : List DetectedModule) (initDirs : List String) :
    (∀ p ∈ (build_import_graph f repoPath astModules detected initDirs).edges,
      p.1 ∈ (build_import_graph f repoPath astModules detected initDirs).nodes ∧
      p.2 ∈ (build_import_graph f repoPath astModules detected initDirs).nodes) ∧
    (build_import_graph f repoPath astModules detected initDirs).edges.Nodup ∧
    (∀ p ∈ (build_import_graph f repoPath astModules detected initDirs).edges,
      p.2 ∈ identify_internal_modules repoPath astModules detected initDirs ∧ p.2 ≠ "") ∧
    (∀ t : List Char, normalize_imported_module
      (String.mk (Char.ofNat 46 :: Char.ofNat 46 :: Char.ofNat 47 :: t)) = none) := by
  have hacc := importGraph_fold_inv repoPath
    (identify_internal_modules repoPath astModules detected initDirs) astModules ([], [])
    (by simp)
  refine ⟨?_, ?_, ?_, ?_⟩
  · intro p hp
    simp only [build_import_graph] at hp ⊢
    rw [(hf _).2] at hp
    obtain ⟨q1, q2, _, _⟩ := hacc p hp
    exact ⟨(mem_pySortedSet _ _).mpr q1, (mem_pySortedSet _ _).mpr q2⟩
  · exact (hf _).1
  · intro p hp
    simp only [build_import_graph] at hp
    rw [(hf _).2] at hp
    obtain ⟨_, _, q3, q4⟩ := hacc p hp
    exact ⟨by simpa using q3, q4⟩
  · intro t
    unfold normalize_imported_module
    rw [if_neg (by
      intro h
      have := congrArg String.data h
      simp at this)]
    have hmap : (String.mk (Char.ofNat 46 :: Char.ofNat 46 :: Char.ofNat 47 :: t)).data.map
        (fun c => if c = bslashChar then Char.ofNat 47 else c)
        = Char.ofNat 46 :: Char.ofNat 46 :: Char.ofNat 47 ::
          t.map (fun c => if c = bslashChar then Char.ofNat 47 else c) := by
      show (Char.ofNat 46 :: Char.ofNat 46 :: Char.ofNat 47 :: t).map _ = _
      simp only [List.map_cons]
      rfl
    rw [hmap]
    have h1 : isPre "./".data (Char.ofNat 46 :: Char.ofNat 46 :: Char.ofNat 47 ::
        t.map (fun c => if c = bslashChar then Char.ofNat 47 else c)) = false := by
      simp only [isPre]
      decide
    have h2 : isPre "../".data (Char.ofNat 46 :: Char.ofNat 46 :: Char.ofNat 47 ::
        t.map (fun c => if c = bslashChar then Char.ofNat 47 else c)) = true := by
      simp only [isPre]
      decide
    simp [h1, h2]

/-- Counterexample for C5 as stated: a JavaScript module whose only import
is the parent-relative `import x from "../utils"` still produces the edge
`("a", "utils")`, because the extractor strips the leading dots/slashes
before resolution. -/
theorem parent_relative_import_produces_edge :
    (build_import_graph List.dedup "/repo"
      [{ path := "a.js", language := "javascript",
         imports := ["import x from \"../utils\""] },
       { path := "utils.js", language := "javascript" }] [] []).edges
        = [("a", "utils")] ∧
    startsWithS "../utils" "../" = true := by
  refine ⟨?_, ?_⟩ <;> decide

/-- Closed witness for the amended C5, at a concrete repository and the
concrete set ordering `List.dedup`. -/
theorem import_graph_edge_invariants_witness :
    IsSetOrder List.dedup ∧
    (∀ p ∈ (build_import_graph List.dedup "/repo"
        [{ path := "a.js", language := "javascript",
           imports := ["import x from \"../utils\""] },
         { path := "utils.js", language := "javascript" }] [] []).edges,
      p.1 ∈ (build_import_graph List.dedup "/repo"
        [{ path := "a.js", language := "javascript",
           imports := ["import x from \"../utils\""] },
         { path := "utils.js", language := "javascript" }] [] []).nodes ∧
      p.2 ∈ (build_import_graph List.dedup "/repo"
        [{ path := "a.js", language := "javascript",
           imports := ["import x from \"../utils\""] },
         { path := "utils.js", language := "javascript" }] [] []).nodes) :=
  ⟨isSetOrder_dedup,
   (import_graph_edge_invariants List.dedup isSetOrder_dedup "/repo"
     [{ path := "a.js", language := "javascript",
        imports := ["import x from \"../utils\""] },
      { path := "utils.js", language := "javascript" }] [] []).1⟩

/-! ## Graph simplification thresholds (C6) -/

theorem collapseEdge_eq_some (nodes : List String) (p : String × String) (a b : String) :
    collapseEdge nodes p = some (a, b) ↔
      ¬(excludedPackages.contains (topSegment p.1) = true) ∧
      ¬(excludedPackages.contains (topSegment p.2) = true) ∧
      topLevelMapGet nodes p.1 = some a ∧ topLevelMapGet nodes p.2 = some b ∧
      a ≠ "" ∧ b ≠ "" ∧ a ≠ b := by
  unfold collapseEdge
  by_cases hex : (excludedPackages.contains (topSegment p.1)
      || excludedPackages.contains (topSegment p.2)) = true
  · rw [if_pos hex]
    constructor
    · intro h; exact Option.noConfusion h
    · rintro ⟨q1, q2, _⟩
      rcases Bool.or_eq_true _ _ |>.mp hex with h | h
      · exact (q1 h).elim
      · exact (q2 h).elim
  · rw [if_neg hex]
    simp only [Bool.or_eq_true, not_or] at hex
    rcases h1 : topLevelMapGet nodes p.1 with _ | a' <;>
      rcases h2 : topLevelMapGet nodes p.2 with _ | b'
    · show (none : Option (String × String)) = some (a, b) ↔ _
      constructor
      · intro h; exact Option.noConfusion h
      · rintro ⟨_, _, ha, _⟩; exact Option.noConfusion ha
    · show (none : Option (String × String)) = some (a, b) ↔ _
      constructor
      · intro h; exact Option.noConfusion h
      · rintro ⟨_, _, ha, _⟩; exact Option.noConfusion ha
    · show (none : Option (String × String)) = some (a, b) ↔ _
      constructor
      · intro h; exact Option.noConfusion h
      · rintro ⟨_, _, _, hb, _⟩; exact Option.noConfusion hb
    · show (if (!(a' = "") && !(b' = "") && !(a' = b')) = true then some (a', b') else none)
          = some (a, b) ↔ _
      by_cases hg : (!(a' = "") && !(b' = "") && !(a' = b')) = true
      · rw [if_pos hg]
        simp only [Bool.and_eq_true, Bool.not_eq_true', decide_eq_false_iff_not] at hg
        constructor
        · intro heq
          injection heq with hpair
          obtain ⟨rfl, rfl⟩ := Prod.mk.injEq _ _ _ _ |>.mp hpair
          exact ⟨hex.1, hex.2, rfl, rfl, hg.1.1, hg.1.2, hg.2⟩
        · rintro ⟨_, _, ha, hb, _, _, _⟩
          injection ha with ha'; injection hb with hb'
          rw [ha', hb']
      · rw [if_neg hg]
        constructor
        · intro h; exact Option.noConfusion h
        · rintro ⟨_, _, ha, hb, n1, n2, n3⟩
          injection ha with ha'; injection hb with hb'
          rw [← ha'] at n1 n3
          rw [← hb'] at n2 n3
          exact absurd (show (!(a' = "") && !(b' = "") && !(a' = b')) = true by
            simp [n1, n2, n3]) hg

/-- Claim C6: the simplification thresholds.  Exactly 15 nodes render at
full detail, unsimplified; 16 nodes go through `_group_submodules`
(2-segment collapse, self-loop elimination, simplified flag); 31 nodes go
through `_collapse_to_top_level` (test packages excluded, main packages
kept at 2 segments, others at 1, simplified flag). -/
theorem simplification_thresholds (f : List (String × String) → List (String × String))
    (hf : IsSetOrder f) (g : ImportGraph) (title : String) :
    (g.nodes.length = 15 →
      generate_module_flowchart f g title =
        { mermaid := generate_mermaid_text g.nodes g.edges title, node_count := 15,
          simplified := false, title := title }) ∧
    (g.nodes.length = 16 →
      (generate_module_flowchart f g title).simplified = true ∧
      generate_module_flowchart f g title =
        { mermaid := generate_mermaid_text (group_submodules f g.nodes g.edges).1
            (group_submodules f g.nodes g.edges).2 title,
          node_count := (group_submodules f g.nodes g.edges).1.length,
          simplified := true, title := title } ∧
      (∀ m, m ∈ (group_submodules f g.nodes g.edges).1 ↔
        ∃ n ∈ g.nodes, groupCollapse n = m) ∧
      (∀ a b, (a, b) ∈ (group_submodules f g.nodes g.edges).2 ↔
        ∃ p ∈ g.edges, groupMapGet g.nodes p.1 = a ∧ groupMapGet g.nodes p.2 = b ∧ a ≠ b)) ∧
    (g.nodes.length = 31 →
      (generate_module_flowchart f g title).simplified = true ∧
      generate_module_flowchart f g title =
        { mermaid := generate_mermaid_text (collapse_to_top_level f g.nodes g.edges).1
            (collapse_to_top_level f g.nodes g.edges).2 title,
          node_count := (collapse_to_top_level f g.nodes g.edges).1.length,
          simplified := true, title := title } ∧
      (∀ m, m ∈ (collapse_to_top_level f g.nodes g.edges).1 ↔
        ∃ n ∈ g.nodes, ¬(excludedPackages.contains (topSegment n) = true) ∧
          collapseTopLevel g.nodes n = m) ∧
      (∀ a b, (a, b) ∈ (collapse_to_top_level f g.nodes g.edges).2 ↔
        ∃ p ∈ g.edges, ¬(excludedPackages.contains (topSegment p.1) = true) ∧
          ¬(excludedPackages.contains (topSegment p.2) = true) ∧
          topLevelMapGet g.nodes p.1 = some a ∧ topLevelMapGet g.nodes p.2 = some b ∧
          a ≠ "" ∧ b ≠ "" ∧ a ≠ b)) := by
  refine ⟨?_, ?_, ?_⟩
  · intro h15
    have hne : g.nodes.isEmpty = false := by
      rcases hl : g.nodes with _ | ⟨x, xs⟩
      · rw [hl] at h15; simp at h15
      · simp
    simp [generate_module_flowchart, hne, h15, MAX_NODES_MODULE_LEVEL, MAX_NODES_FULL_DETAIL]
  · intro h16
    have hne : g.nodes.isEmpty = false := by
      rcases hl : g.nodes with _ | ⟨x, xs⟩
      · rw [hl] at h16; simp at h16
      · simp
    refine ⟨?_, ?_, ?_, ?_⟩
    · simp [generate_module_flowchart, hne, h16, MAX_NODES_MODULE_LEVEL, MAX_NODES_FULL_DETAIL]
    · simp [generate_module_flowchart, hne, h16, MAX_NODES_MODULE_LEVEL, MAX_NODES_FULL_DETAIL]
    · intro m
      simp only [group_submodules, mem_pySortedSet, List.mem_map]
    · intro a b
      simp only [group_submodules]
      rw [(hf _).2]
      simp only [List.mem_filter, List.mem_map, Bool.not_eq_true', decide_eq_false_iff_not]
      constructor
      · rintro ⟨⟨p, hp, heq⟩, hneq⟩
        rcases Prod.mk.injEq _ _ _ _ |>.mp heq.symm with ⟨ha, hb⟩
        exact ⟨p, hp, ha.symm, hb.symm, by simpa using hneq⟩
      · rintro ⟨p, hp, ha, hb, hneq⟩
        exact ⟨⟨p, hp, by rw [ha, hb]⟩, by simpa using hneq⟩
  · intro h31
    have hne : g.nodes.isEmpty = false := by
      rcases hl : g.nodes with _ | ⟨x, xs⟩
      · rw [hl] at h31; simp at h31
      · simp
    refine ⟨?_, ?_, ?_, ?_⟩
    · simp [generate_module_flowchart, hne, h31, MAX_NODES_MODULE_LEVEL]
    · simp [generate_module_flowchart, hne, h31, MAX_NODES_MODULE_LEVEL]
    · intro m
      simp only [collapse_to_top_level, mem_pySortedSet, List.mem_map, List.mem_filter,
        Bool.not_eq_true', decide_eq_false_iff_not]
      constructor
      · rintro ⟨n, ⟨hn, hex⟩, heq⟩
        exact ⟨n, hn, by simpa using hex, heq⟩
      · rintro ⟨n, hn, hex, heq⟩
        exact ⟨n, ⟨hn, by simpa using hex⟩, heq⟩
    · intro a b
      simp only [collapse_to_top_level]
      rw [(hf _).2]
      simp only [List.mem_filterMap]
      constructor
      · rintro ⟨p, hp, heq⟩
        obtain ⟨e1, e2, m1, m2, n1, n2, n3⟩ := (collapseEdge_eq_some _ _ _ _).mp heq
        exact ⟨p, hp, e1, e2, m1, m2, n1, n2, n3⟩
      · rintro ⟨p, hp, e1, e2, m1, m2, n1, n2, n3⟩
        exact ⟨p, hp, (collapseEdge_eq_some _ _ _ _).mpr ⟨e1, e2, m1, m2, n1, n2, n3⟩⟩

/-! ## C7: two-run byte-identity of the rendered diagram -/

/-- Claim C7 evaluated at a failing input: the deterministic analysis is a
pure function of the repository except for the order in which
`list(set(edges))` enumerates the deduplicated edge set.  Two admissible
set orders give the same node list and the same edge set, but render to
different Mermaid bytes (the edge lines swap). -/
theorem mermaid_bytes_depend_on_set_order :
    IsSetOrder List.dedup ∧ IsSetOrder (fun l => l.dedup.reverse) ∧
    (build_import_graph List.dedup "/r" twoEdgeModules [] []).nodes
        = (build_import_graph (fun l => l.dedup.reverse) "/r" twoEdgeModules [] []).nodes ∧
    (build_import_graph List.dedup "/r" twoEdgeModules [] []).edges
        = [("a", "b"), ("a", "c")] ∧
    (build_import_graph (fun l => l.dedup.reverse) "/r" twoEdgeModules [] []).edges
        = [("a", "c"), ("a", "b")] ∧
    (generate_module_flowchart List.dedup
        (build_import_graph List.dedup "/r" twoEdgeModules [] []) "T").mermaid
      ≠ (generate_module_flowchart (fun l => l.dedup.reverse)
        (build_import_graph (fun l => l.dedup.reverse) "/r" twoEdgeModules [] []) "T").mermaid := by
  refine ⟨isSetOrder_dedup, isSetOrder_dedup_reverse, ?_, ?_, ?_, ?_⟩ <;> decide

/-- Closed witness for C6 at the 15-node boundary with `List.dedup` as the
set ordering. -/
theorem simplification_thresholds_witness :
    IsSetOrder List.dedup ∧ fifteenNodeGraph.nodes.length = 15 ∧
    generate_module_flowchart List.dedup fifteenNodeGraph "T" =
      { mermaid := generate_mermaid_text fifteenNodeGraph.nodes fifteenNodeGraph.edges "T",
        node_count := 15, simplified := false, title := "T" } :=
  ⟨isSetOrder_dedup, rfl,
   (simplification_thresholds List.dedup isSetOrder_dedup fifteenNodeGraph "T").1 rfl⟩

/-! ## C9: the SBOM license merge -/

theorem lastKeyIdx_spec (l : List Dependency) (k : String × String) (j : Nat)
    (h : lastKeyIdx l k = some j) :
    ∃ d, l[j]? = some d ∧ (d.name, d.ecosystem) = k := by
  induction l generalizing j with
  | nil => simp [lastKeyIdx] at h
  | cons d t ih =>
    rcases hj : lastKeyIdx t k with _ | j'
    · simp only [lastKeyIdx, hj] at h
      split at h
      · injection h with h0
        subst h0
        refine ⟨d, by simp, by assumption⟩
      · simp at h
    · simp only [lastKeyIdx, hj] at h
      injection h with h1
      subst h1
      obtain ⟨d0, hd0, hk⟩ := ih j' hj
      exact ⟨d0, by simpa [List.getElem?_cons_succ] using hd0, hk⟩

theorem mergeSbomStep_preserved (deps0 : List Dependency) (allPkgs : List CanonicalPackage)
    (i : Nat) (cur : List Dependency) (pkg : CanonicalPackage) (hpkg : pkg ∈ allPkgs)
    (hinv : MergePreserved deps0 allPkgs i cur) :
    MergePreserved deps0 allPkgs i (mergeSbomStep deps0 cur pkg) := by
  obtain ⟨d0, d', hd0, hd', f1, f2, f3, f4, lic1, lic2⟩ := hinv
  have hlt : i < cur.length := (List.getElem?_eq_some.mp hd').1
  rcases hidx : lastKeyIdx deps0 (pkg.name, pkg.ecosystem) with _ | j
  · have hstep : mergeSbomStep deps0 cur pkg = cur ++ [dependencyOfPackage pkg] := by
      simp [mergeSbomStep, hidx]
    rw [hstep]
    refine ⟨d0, d', hd0, ?_, f1, f2, f3, f4, lic1, lic2⟩
    rw [List.getElem?_append, if_pos hlt]
    exact hd'
  · rcases hdj : cur[j]? with _ | dj
    · have hstep : mergeSbomStep deps0 cur pkg = cur := by
        simp [mergeSbomStep, hidx, hdj]
      rw [hstep]
      exact ⟨d0, d', hd0, hd', f1, f2, f3, f4, lic1, lic2⟩
    · by_cases hcond : (optTruthy pkg.license && !optTruthy dj.license) = true
      · have hstep : mergeSbomStep deps0 cur pkg
            = cur.set j { dj with license := pkg.license } := by
          simp [mergeSbomStep, hidx, hdj, hcond]
        rw [hstep]
        simp only [Bool.and_eq_true, Bool.not_eq_true'] at hcond
        by_cases hij : j = i
        · subst hij
          rw [hd'] at hdj
          injection hdj with hdjeq
          subst hdjeq
          obtain ⟨dk, hdk, hkk⟩ := lastKeyIdx_spec deps0 _ _ hidx
          rw [hd0] at hdk
          injection hdk with hdkeq
          subst hdkeq
          have hknames : d0.name = pkg.name ∧ d0.ecosystem = pkg.ecosystem := by
            have := Prod.mk.injEq _ _ _ _ |>.mp hkk
            exact ⟨this.1, this.2⟩
          have hfalsy : optTruthy d0.license = false := by
            by_cases hb : optTruthy d0.license = true
            · rw [lic1 hb] at hcond
              rw [hcond.2] at hb
              exact absurd hb (by simp)
            · simpa using hb
          refine ⟨d0, { d' with license := pkg.license }, hd0, ?_, f1, f2, f3, f4, ?_, ?_⟩
          · rw [List.getElem?_set, if_pos rfl, if_pos hlt]
          · intro htru
            rw [hfalsy] at htru
            exact absurd htru (by simp)
          · intro _
            refine ⟨hfalsy, pkg, hpkg, ?_, ?_, hcond.1, rfl⟩
            · exact hknames.1.symm
            · exact hknames.2.symm
        · have hstep2 : (cur.set j { dj with license := pkg.license })[i]? = cur[i]? := by
            rw [List.getElem?_set, if_neg hij]
          refine ⟨d0, d', hd0, by rw [hstep2]; exact hd', f1, f2, f3, f4, lic1, lic2⟩
      · have hstep : mergeSbomStep deps0 cur pkg = cur := by
          simp only [mergeSbomStep, hidx, hdj]
          rw [if_neg hcond]
        rw [hstep]
        exact ⟨d0, d', hd0, hd', f1, f2, f3, f4, lic1, lic2⟩

theorem merge_fold_preserved (deps0 : List Dependency) (allPkgs : List CanonicalPackage)
    (pkgs : List CanonicalPackage) (hsub : ∀ p ∈ pkgs, p ∈ allPkgs)
    (i : Nat) (cur : List Dependency)
    (hinv : MergePreserved deps0 allPkgs i cur) :
    MergePreserved deps0 allPkgs i (pkgs.foldl (mergeSbomStep deps0) cur) := by
  induction pkgs generalizing cur with
  | nil => simpa using hinv
  | cons pkg t ih =>
    simp only [List.foldl_cons]
    exact ih (fun p hp => hsub p (List.mem_cons_of_mem _ hp)) _
      (mergeSbomStep_preserved deps0 allPkgs i cur pkg (hsub pkg (List.mem_cons_self _ _)) hinv)

theorem mergePreserved_init (deps0 : List Dependency) (pkgs : List CanonicalPackage)
    (i : Nat) (h : i < deps0.length) :
    MergePreserved deps0 pkgs i deps0 := by
  refine ⟨deps0[i], deps0[i], ?_, ?_, rfl, rfl, rfl, rfl, fun _ => rfl,
    fun hne => absurd rfl hne⟩
  · exact List.getElem?_eq_some.mpr ⟨h, rfl⟩
  · exact List.getElem?_eq_some.mpr ⟨h, rfl⟩

/-- Claim C9 (amended): when SBOM packages are merged, every dependency
record already in the technology stack keeps its name, ecosystem, version
and source file; a truthy (non-missing, non-empty) license is never
overwritten; and a license only changes from missing (None or empty) to
the truthy license of an SBOM package with the same (name, ecosystem) key. -/
theorem merge_sbom_preserves_existing (deps0 : List Dependency)
    (pkgs : List CanonicalPackage) (i : Nat) (h : i < deps0.length) :
    MergePreserved deps0 pkgs i (merge_sbom_data deps0 pkgs) :=
  merge_fold_preserved deps0 pkgs pkgs (fun _ hp => hp) i deps0
    (mergePreserved_init deps0 pkgs i h)

/-- Counterexample for C9 as stated: a record whose license is the empty
string (not None) *is* overwritten by the SBOM license, because the code
tests Python truthiness (`not existing.license`), not `is None`. -/
theorem empty_string_license_is_overwritten :
    merge_sbom_data
      [{ name := "a", ecosystem := "npm", source_file := "package.json",
         license := some "" }]
      [{ name := "a", ecosystem := "npm", license := some "MIT" }]
      = [{ name := "a", ecosystem := "npm", source_file := "package.json",
           license := some "MIT" }] := by decide

/-- Closed witness for the amended C9 at index 0 of a one-record stack. -/
theorem merge_sbom_preserves_existing_witness :
    0 < ([{ name := "a", ecosystem := "npm", source_file := "p",
            license := some "MIT" }] : List Dependency).length ∧
    MergePreserved
      [{ name := "a", ecosystem := "npm", source_file := "p", license := some "MIT" }]
      [{ name := "a", ecosystem := "npm", license := some "BSD" }] 0
      (merge_sbom_data
        [{ name := "a", ecosystem := "npm", source_file := "p", license := some "MIT" }]
        [{ name := "a", ecosystem := "npm", license := some "BSD" }]) :=
  ⟨by decide,
   merge_sbom_preserves_existing
     [{ name := "a", ecosystem := "npm", source_file := "p", license := some "MIT" }]
     [{ name := "a", ecosystem := "npm", license := some "BSD" }] 0 (by decide)⟩
